import Mathlib

/-!
The go-send-mail program: scheduling, record parsing and the dispatch loop

A shallow embedding of `main.go` together with the parts of the Go standard
library it calls (`time`, `strings`), followed by the properties of the
scheduler, the record parser and the per-recipient dispatch loop.

Modelling conventions.

* A Go `string` is a Lean `String`; the library routines work on its list of
  characters (runes).  Only valid UTF-8 text is represented.
* A `time.Time` is an instant (whole seconds since 0001-01-01T00:00:00Z plus a
  nanosecond field in `[0, 10^9)`) together with a location.  A location is a
  zone table: the offset in effect before the first transition and the
  transitions in ascending order, each with the offset in effect from then on
  (`time.UTC` and `time.FixedZone` have no transition).  The tables of the
  model have their transitions in the local morning: at the instant of a
  transition every offset of the location reads a time before 16:00 of one and
  the same day.  The rule string that extends a table past its last transition
  is not modelled.
* `Time.Add` saturates the 64-bit second counter as the library does.  The
  calendar routines (`Hour`, `Date`, `AddDate`, `time.Date`) compute on
  unbounded integers; they agree with the library from the absolute epoch of
  package `time` (January 1 of year -292277022399) up to the largest second
  the counter holds, the range in which the library's unsigned arithmetic
  does not wrap around.
* A `time.Duration` is an integer count of nanoseconds; every `int64` value is
  one of them.
* Effects of `main` (template reads, renders, SMTP hand-offs, file writes) are
  recorded as a trace of events; the outcome of each external call is supplied
  by a `World` oracle.
-/

set_option autoImplicit false
set_option linter.unusedVariables false
set_option linter.dupNamespace false

/-! ## The program and the library routines it calls -/

namespace time

/-- Go `time.Duration`: a count of nanoseconds. -/
abbrev Duration := Int

def Nanosecond : Duration := 1
def Microsecond : Duration := 1000 * Nanosecond
def Millisecond : Duration := 1000 * Microsecond
def Second : Duration := 1000 * Millisecond
def Minute : Duration := 60 * Second
def Hour : Duration := 60 * Minute

/-- Go `time.Month`: January is 1. -/
abbrev Month := Int

def December : Month := 12

/-- Go `zoneTrans` together with the offset of the zone it points to: from the
instant `when` on (seconds since January 1, year 1, UTC) the offset `offset`
(seconds east of UTC) is in effect. -/
structure zoneTrans where
  when : Int
  offset : Int
deriving DecidableEq, Repr

/-- Go `*time.Location`: `zone0` is the offset in effect before the first
transition (`lookupFirstZone`), `tx` the transitions in ascending order.
`morning` says that at each transition every offset of the location reads a
time before 16:00 of the same day. -/
structure Location where
  zone0 : Int
  tx : List zoneTrans
  ascending : tx.Pairwise (fun a b => a.when < b.when)
  morning : ∀ tr ∈ tx, ∀ o ∈ zone0 :: tx.map zoneTrans.offset,
    (tr.when + o) / 86400 = (tr.when + zone0) / 86400 ∧ (tr.when + o) % 86400 < 57600
deriving DecidableEq

/-- Go `time.UTC`. -/
def UTC : Location := ⟨0, [], List.Pairwise.nil, by decide⟩

/-- Go `time.FixedZone`. -/
def FixedZone (offset : Int) : Location :=
  ⟨offset, [], List.Pairwise.nil, fun _ h => absurd h (List.not_mem_nil _)⟩

/-- The search of Go `Location.lookup` for the transition in effect at `sec`,
as a scan of the ascending table: `offset` and `start` belong to the period
reached so far.  The result is `(offset, start, end)`; `none` stands for the
open ends `alpha` and `omega`. -/
def Location.lookup.scan (sec : Int) : Int → Option Int → List zoneTrans →
    Int × Option Int × Option Int
  | offset, start, [] => (offset, start, none)
  | offset, start, tr :: rest =>
    if sec < tr.when then (offset, start, some tr.when)
    else Location.lookup.scan sec tr.offset (some tr.when) rest

/-- Go `Location.lookup`: the offset in effect at the instant `sec` and the
bounds of the period `[start, end)` in which it is in effect. -/
def Location.lookup (l : Location) (sec : Int) : Int × Option Int × Option Int :=
  Location.lookup.scan sec l.zone0 none l.tx

/-- The test `utc < start || utc >= end` of `time.Date`. -/
def Location.outside (utc : Int) (start stop : Option Int) : Bool :=
  (match start with
    | some s => decide (utc < s)
    | none => false) ||
  (match stop with
    | some e => decide (utc ≥ e)
    | none => false)

/-- Go `time.Time`: `sec` counts seconds since January 1, year 1, 00:00:00 UTC. -/
@[ext] structure Time where
  sec : Int
  nsec : Nat
  nsec_lt : nsec < 1000000000
  loc : Location
deriving DecidableEq

def secondsPerMinute : Int := 60
def secondsPerHour : Int := 60 * secondsPerMinute
def secondsPerDay : Int := 24 * secondsPerHour
def daysPer400Years : Int := 365 * 400 + 97
def daysPer100Years : Int := 365 * 100 + 24
def daysPer4Years : Int := 365 * 4 + 1

/-- Go `daysBefore[m]`: days in a non-leap year before month `m + 1`. -/
def daysBefore (m : Int) : Int :=
  [0, 31, 59, 90, 120, 151, 181, 212, 243, 273, 304, 334, 365].getD m.toNat 0

/-- Go `isLeap`. -/
def isLeap (year : Int) : Bool :=
  year % 4 == 0 && (year % 100 != 0 || year % 400 == 0)

/-- Go `Time.abs`: seconds since year 1 on the local clock of the location. -/
def Time.abs (t : Time) : Int := t.sec + (t.loc.lookup t.sec).1

/-- Go `absClock`. -/
def absClock (abs : Int) : Int × Int × Int :=
  let sec := abs % secondsPerDay
  let hour := sec / secondsPerHour
  let sec := sec - hour * secondsPerHour
  let min := sec / secondsPerMinute
  let sec := sec - min * secondsPerMinute
  (hour, min, sec)

/-- The year part of Go `absDate`: from a day count since January 1 of year 1
to `(year, yday)`. -/
def absDate.yearDay (d : Int) : Int × Int :=
  -- account for 400 year cycles
  let n := d / daysPer400Years
  let y := 400 * n
  let d := d - daysPer400Years * n
  -- cut off 100-year cycles; the last one has an extra leap year
  let n := d / daysPer100Years
  let n := n - n / 4
  let y := y + 100 * n
  let d := d - daysPer100Years * n
  -- cut off 4-year cycles
  let n := d / daysPer4Years
  let y := y + 4 * n
  let d := d - daysPer4Years * n
  -- cut off years within a 4-year cycle; the last one is a leap year
  let n := d / 365
  let n := n - n / 4
  let y := y + n
  let d := d - 365 * n
  (y + 1, d)

/-- The month part of Go `absDate`: from the day of the year to `(month, day)`. -/
def absDate.monthDay (leap : Bool) (yday : Int) : Int × Int :=
  if leap && yday == 31 + 29 - 1 then
    -- leap day
    (2, 29)
  else
    -- after leap day: pretend it was not there
    let day := if leap && yday > 31 + 29 - 1 then yday - 1 else yday
    -- estimate the month on the assumption that every month has 31 days
    let month := day / 31
    let endd := daysBefore (month + 1)
    if day ≥ endd then
      (month + 1 + 1, day - endd + 1)
    else
      (month + 1, day - daysBefore month + 1)

/-- Go `absDate` with `full = true`: `(year, month, day, yday)`. -/
def absDate (abs : Int) : Int × Int × Int × Int :=
  let yd := absDate.yearDay (abs / secondsPerDay)
  let md := absDate.monthDay (isLeap yd.1) yd.2
  (yd.1, md.1, md.2, yd.2)

/-- Go `Time.Date`. -/
def Time.Date (t : Time) : Int × Month × Int :=
  let r := absDate t.abs
  (r.1, r.2.1, r.2.2.1)

def Time.Year (t : Time) : Int := (absDate t.abs).1
def Time.Month (t : Time) : Month := (absDate t.abs).2.1
def Time.Day (t : Time) : Int := (absDate t.abs).2.2.1

/-- Go `Time.Clock`. -/
def Time.Clock (t : Time) : Int × Int × Int := absClock t.abs

/-- Go `Time.Hour`. -/
def Time.Hour (t : Time) : Int := (t.abs % secondsPerDay) / secondsPerHour

/-- Go `norm`: carry `lo` into `hi` so that `0 ≤ lo < base`. -/
def norm (hi lo base : Int) : Int × Int :=
  let n1 := (-lo - 1) / base + 1
  let hi1 := if lo < 0 then hi - n1 else hi
  let lo1 := if lo < 0 then lo + n1 * base else lo
  let n2 := lo1 / base
  if lo1 ≥ base then (hi1 + n2, lo1 - n2 * base) else (hi1, lo1)

/-- Go `daysSinceEpoch`, counted from January 1 of year 1. -/
def daysSinceEpoch (year : Int) : Int :=
  let y := year - 1
  let n := y / 400
  let y := y - 400 * n
  let d := daysPer400Years * n
  let n := y / 100
  let y := y - 100 * n
  let d := d + daysPer100Years * n
  let n := y / 4
  let y := y - 4 * n
  let d := d + daysPer4Years * n
  d + 365 * y

theorem norm_nsec_lt (hi lo : Int) : ((norm hi lo 1000000000).2).toNat < 1000000000 := by
  unfold norm
  simp only []
  split_ifs <;> omega

/-- The last step of Go `time.Date`: `unix` is the wanted clock reading taken
as if it were UTC; the zone offset of the expected time is looked up and
subtracted. -/
def Location.adjust (loc : Location) (unix : Int) : Int :=
  let z := loc.lookup unix
  if z.1 ≠ 0 then
    let utc := unix - z.1
    -- if utc is valid for the zone found, the offset is right; if not, the
    -- offset is the one found by looking utc up in the location
    let offset := if Location.outside utc z.2.1 z.2.2 then (loc.lookup utc).1 else z.1
    unix - offset
  else unix

/-- Go `time.Date`. -/
def Date (year : Int) (month : Month) (day hour min sec nsec : Int) (loc : Location) : Time :=
  -- normalize month, overflowing into year
  let ym := norm year (month - 1) 12
  let year := ym.1
  let month := ym.2 + 1
  -- normalize nsec, sec, min, hour, overflowing into day
  let sn := norm sec nsec 1000000000
  let ms := norm min sn.1 60
  let hm := norm hour ms.1 60
  let dh := norm day hm.1 24
  -- days since the epoch
  let d := daysSinceEpoch year
  let d := d + daysBefore (month - 1)
  let d := if isLeap year && month ≥ 3 then d + 1 else d
  let d := d + (dh.1 - 1)
  -- time elapsed today
  let abs := d * secondsPerDay + (dh.2 * secondsPerHour + hm.2 * secondsPerMinute + ms.2)
  ⟨loc.adjust abs, sn.2.toNat, norm_nsec_lt sec nsec, loc⟩

/-- Go `Time.AddDate`. -/
def Time.AddDate (t : Time) (years months days : Int) : Time :=
  let ymd := t.Date
  let hms := t.Clock
  time.Date (ymd.1 + years) (ymd.2.1 + months) (ymd.2.2 + days) hms.1 hms.2.1 hms.2.2 t.nsec t.loc

theorem add_nsec_lt (n : Nat) (hn : n < 1000000000) (d : Int) :
    (if (n : Int) + d.tmod 1000000000 ≥ 1000000000 then (n : Int) + d.tmod 1000000000 - 1000000000
      else if (n : Int) + d.tmod 1000000000 < 0 then (n : Int) + d.tmod 1000000000 + 1000000000
      else (n : Int) + d.tmod 1000000000).toNat < 1000000000 := by
  have h1 : d.tmod 1000000000 < 1000000000 := by
    have := Int.tmod_lt_of_pos d (show (0 : Int) < 1000000000 by decide)
    exact this
  have h2 : -1000000000 < d.tmod 1000000000 := by
    rcases Int.le_total 0 d with h | h
    · have := Int.tmod_nonneg 1000000000 h
      omega
    · have h3 := Int.tmod_lt_of_pos (-d) (show (0 : Int) < 1000000000 by decide)
      have h4 : (-d).tmod 1000000000 = -(d.tmod 1000000000) := by
        rw [Int.tmod_def, Int.tmod_def, Int.neg_tdiv]
        omega
      omega
  split_ifs <;> omega

/-- The largest `int64`. -/
def maxInt64 : Int := 9223372036854775807

/-- The absolute epoch of package `time`, January 1 of year -292277022399, in
seconds since January 1 of year 1 (Go `absoluteToInternal`). -/
def absoluteEpoch : Int := -9223371966579724800

/-- The value an `int64` holds after an addition whose exact result is `x`. -/
def wrapInt64 (x : Int) : Int := (x + 9223372036854775808) % 18446744073709551616 - 9223372036854775808

/-- Go `Time.addSec` for a time without monotonic clock reading: the sum of the
second counter and `d`, replaced by the largest or smallest counter value when
the `int64` addition overflows. -/
def Time.addSec (sec d : Int) : Int :=
  let sum := wrapInt64 (sec + d)
  if decide (sum > sec) = decide (d > 0) then sum
  else if d > 0 then maxInt64
  else -maxInt64

/-- Go `Time.Add`: the duration is split with truncated division, as `/` and
`%` on `int64` do; the nanoseconds are updated first, then `addSec` moves the
second counter. -/
def Time.Add (t : Time) (d : Duration) : Time :=
  let dsec := d.tdiv 1000000000
  let nsec := (t.nsec : Int) + d.tmod 1000000000
  let dsec1 := if nsec ≥ 1000000000 then dsec + 1 else if nsec < 0 then dsec - 1 else dsec
  ⟨Time.addSec t.sec dsec1,
   (if nsec ≥ 1000000000 then nsec - 1000000000 else if nsec < 0 then nsec + 1000000000
      else nsec).toNat,
   add_nsec_lt t.nsec t.nsec_lt d, t.loc⟩

end time

open time

/-- One pass of the loop body of `generateSchedule`, on the loop state
`(currentTime, schedule, deadlines)`. -/
def generateSchedule.body (interval : Duration)
    (st : Time × List Time × List Time) : Time × List Time × List Time :=
  let currentTime := st.1
  -- check if the current time is after 4:00 PM
  let currentTime :=
    if currentTime.Hour ≥ 16 then
      let currentTime := currentTime.AddDate 0 0 1
      Date currentTime.Year currentTime.Month currentTime.Day 10 0 0 0 UTC
    else currentTime
  let schedule := st.2.1 ++ [currentTime]
  let deadline := currentTime.AddDate 0 0 (-1)
  let deadlines := st.2.2 ++ [deadline]
  (currentTime.Add interval, schedule, deadlines)

/-- The loop `for i := 0; i < numProspects; i++` of `generateSchedule`: `k`
is the number of passes still to run. -/
def generateSchedule.loop (interval : Duration) :
    Nat → Time × List Time × List Time → Time × List Time × List Time
  | 0, st => st
  | k + 1, st => generateSchedule.loop interval k (generateSchedule.body interval st)

/-- `generateSchedule` of `main.go`: `(schedule, deadlines)`. -/
def generateSchedule (start : Time) (interval : Duration) (numProspects : Int) :
    List Time × List Time :=
  let st := generateSchedule.loop interval numProspects.toNat (start, [], [])
  (st.2.1, st.2.2)

/-- The month/day round trip, checked for each day of the year. -/
def monthDayOk (leap : Bool) (n : Nat) : Bool :=
  let md := absDate.monthDay leap (n : Int)
  decide (1 ≤ md.1) && decide (md.1 ≤ 12) &&
    decide (daysBefore (md.1 - 1) + (if leap && decide (md.1 ≥ 3) then 1 else 0) + (md.2 - 1)
      = (n : Int))

/-- The spec's "next calendar day at 10:00:00": the day after the candidate's
calendar date (read on the candidate's own clock), at 10:00:00.000000000 in
the reference zone UTC. -/
def nextDayAtTen (candidate : Time) : Time :=
  ⟨(candidate.abs / 86400 + 1) * 86400 + 10 * 3600, 0, by decide, UTC⟩

/-- The spec's business-hours rule: a candidate whose hour of day is 16 or
later rolls to the next calendar day at 10:00:00; an earlier one is kept. -/
def businessHoursRule (candidate : Time) : Time :=
  if candidate.Hour ≥ 16 then nextDayAtTen candidate else candidate

/-- The spec's "one calendar day earlier": `d` reads the same time of day as
`t`, nanoseconds included, in the same location, on the previous calendar
date. -/
def oneCalendarDayEarlier (d t : Time) : Bool :=
  decide (d.loc = t.loc) && decide (d.abs / 86400 = t.abs / 86400 - 1) &&
    decide (d.Clock = t.Clock) && decide (d.nsec = t.nsec)

/-- The instants on which the calendar routines above agree with the library:
the second counter and the local clock reading both lie between the absolute
epoch and the largest `int64`. -/
def time.Time.inRange (t : Time) : Bool :=
  decide (absoluteEpoch ≤ t.sec) && decide (t.sec ≤ maxInt64) &&
    decide (absoluteEpoch ≤ t.abs) && decide (t.abs ≤ maxInt64)

/-- The appointments of `k` consecutive slots whose first candidate is `cur`. -/
def appointments (interval : Duration) : Nat → Time → List Time
  | 0, _ => []
  | k + 1, cur =>
    businessHoursRule cur :: appointments interval k ((businessHoursRule cur).Add interval)

/-- Go `Time.Before`. -/
def time.Time.Before (t u : Time) : Bool :=
  decide (t.sec < u.sec) || (decide (t.sec = u.sec) && decide (t.nsec < u.nsec))

/-- Go `Time.Equal`: the same instant, whatever the locations. -/
def time.Time.Equal (t u : Time) : Bool :=
  decide (t.sec = u.sec) && decide (t.nsec = u.nsec)

/-- Nanoseconds since the epoch of the model. -/
def time.Time.nanos (t : Time) : Int := t.sec * 1000000000 + t.nsec

/-- The error kinds of the specification's taxonomy. -/
inductive ErrorKind
  | ConfigError
  | InputError
  | TemplateError
  | TransportError
  | IOError
  | InvalidArgument
deriving DecidableEq, Repr

/-- Go run-time panics: they unwind `main` and end the process. -/
inductive Panic
  | indexOutOfRange (index length : Nat)
  | nilPointerDereference
deriving DecidableEq, Repr

/-- How a call may fail to return normally: an error of the taxonomy handed
back to the caller, or a run-time panic. -/
inductive Failure
  | reported (kind : ErrorKind)
  | panic (p : Panic)
deriving DecidableEq, Repr

/-- A call of `generateSchedule` as its caller sees it.  The Go function has
no error result and performs no operation that can panic (`append`, `Hour`,
`AddDate`, `Date` and `Add` are total), so every call returns its two slices. -/
def generateSchedule.call (start : Time) (interval : Duration) (numProspects : Int) :
    Except Failure (List Time × List Time) :=
  Except.ok (generateSchedule start interval numProspects)

namespace unicode

/-- Go `unicode.IsSpace`: the Latin-1 spaces `\t \n \v \f \r`, space, U+0085
and U+00A0, and beyond Latin-1 the code points with the White_Space property. -/
def IsSpace (r : Char) : Bool :=
  let c := r.toNat
  if c ≤ 0xFF then
    c == 0x09 || c == 0x0A || c == 0x0B || c == 0x0C || c == 0x0D || c == 0x20 ||
      c == 0x85 || c == 0xA0
  else
    c == 0x1680 || (0x2000 ≤ c && c ≤ 0x200A) || c == 0x2028 || c == 0x2029 ||
      c == 0x202F || c == 0x205F || c == 0x3000

end unicode

namespace strings

/-- The scanning loop of Go `strings.FieldsFunc` over the runes still to read.
`cur` is the field that is open (`start >= 0` in the Go code), kept as its
characters `s[start:end]`; `none` stands for `start < 0`. -/
def FieldsFunc.scan (f : Char → Bool) : List Char → Option (List Char) → List (List Char)
  | [], none => []
  | [], some field => [field]
  | r :: rest, none => if f r then scan f rest none else scan f rest (some [r])
  | r :: rest, some field =>
    if f r then field :: scan f rest none else scan f rest (some (field ++ [r]))

/-- Go `strings.FieldsFunc`. -/
def FieldsFunc (s : String) (f : Char → Bool) : List String :=
  (FieldsFunc.scan f s.data none).map String.mk

/-- Go `strings.Fields`: the fields of `s` between runs of white space, as
`FieldsFunc(s, unicode.IsSpace)` computes them (the ASCII fast path of the
library returns the same fields). -/
def Fields (s : String) : List String :=
  FieldsFunc s unicode.IsSpace

/-- Go `strings.Join`. -/
def Join (elems : List String) (sep : String) : String :=
  match elems with
  | [] => ""
  | [e] => e
  | e :: rest => rest.foldl (fun b s => b ++ sep ++ s) e

/-- Go `strings.Count` for a separator of one byte: how often it occurs. -/
def CountByte (c : Char) : List Char → Nat
  | [] => 0
  | r :: rest => (if r = c then 1 else 0) + CountByte c rest

/-- Go `strings.Index` for a separator of one byte: the offset of its first
occurrence, or -1. -/
def IndexByte (c : Char) : List Char → Int
  | [] => -1
  | r :: rest => if r = c then 0 else
      let m := IndexByte c rest
      if m < 0 then -1 else m + 1

/-- The loop of Go `genSplit` (with `sepSave = 0` and a separator of one byte):
`k` is `n - 1 - i`, the number of cuts still allowed. -/
def genSplit.loop (sep : Char) : Nat → List Char → List (List Char)
  | 0, s => [s]
  | k + 1, s =>
    let m := IndexByte sep s
    if m < 0 then [s] else s.take m.toNat :: genSplit.loop sep k (s.drop (m.toNat + 1))

/-- Go `strings.Split(s, sep)` for a separator of one byte, that is
`genSplit(s, sep, 0, -1)`. -/
def Split (s : String) (sep : Char) : List String :=
  let n := CountByte sep s.data + 1
  let n := if n > s.data.length + 1 then s.data.length + 1 else n
  (genSplit.loop sep (n - 1) s.data).map String.mk

end strings

/-- `Prospect` of `main.go`. -/
structure Prospect where
  FirstName : String
  LastName : String
  Email : String
  Phone : String
  Company : String
  Projects : List String
deriving DecidableEq, Repr

/-- `splitFullName` of `main.go`. -/
def splitFullName (fullName : String) : String × String :=
  let names := strings.Fields fullName
  if h : names.length > 0 then
    let firstName := names[0]
    if names.length > 1 then
      (firstName, strings.Join (names.drop 1) " ")
    else
      (firstName, "")
  else
    ("", "")

/-- `parseCommaSeparatedString` of `main.go`. -/
def parseCommaSeparatedString (inputString : String) : List String :=
  strings.Split inputString ','

/-- Go slice indexing `record[i]`: a run-time panic when `i` is out of range. -/
def index (record : List String) (i : Nat) : Except Failure String :=
  match record[i]? with
  | some field => Except.ok field
  | none => Except.error (Failure.panic (Panic.indexOutOfRange i record.length))

/-- The body of the loop of `loadProspectsFromCSV`: one record to one prospect,
with the fields read in the order the code reads them. -/
def loadProspectsFromCSV.convert (record : List String) : Except Failure Prospect := do
  let fullName ← index record 0
  let names := splitFullName fullName
  let projects := parseCommaSeparatedString (← index record 3)
  let email ← index record 1
  let phone ← index record 2
  let company ← index record 4
  return { FirstName := names.1, LastName := names.2, Email := email, Phone := phone,
           Company := company, Projects := projects }

/-- The loop of `loadProspectsFromCSV` over the records that are left. -/
def loadProspectsFromCSV.loop : List (List String) → List Prospect → Except Failure (List Prospect)
  | [], prospects => Except.ok prospects
  | record :: rest, prospects =>
    match loadProspectsFromCSV.convert record with
    | Except.error e => Except.error e
    | Except.ok prospect => loadProspectsFromCSV.loop rest (prospects ++ [prospect])

/-- `loadProspectsFromCSV` of `main.go`; `readCSVfile` is the file reader, which
hands back the records after the header (none when the file cannot be read). -/
def loadProspectsFromCSV (readCSVfile : String → List (List String)) (filePath : String) :
    Except Failure (List Prospect) :=
  loadProspectsFromCSV.loop (readCSVfile filePath) []

/-- The specification's whitespace-delimited tokens of a text: the non-empty
pieces that remain when the text is cut at every white-space character. -/
def whitespaceTokens (s : String) : List String :=
  ((s.data.splitOnP unicode.IsSpace).filter (fun w => !w.isEmpty)).map String.mk

/-- The first index the loop body reads outside a record of `n < 5` fields. -/
def firstBadIndex (n : Nat) : Nat :=
  if n = 0 then 0 else if n ≤ 3 then 3 else 4

/-- `EmailTemplateData` of `main.go`. -/
structure EmailTemplateData where
  RecipientName : String
  CompanyName : String
  Date : String
  Time : String
  Location : String
  ContactName : String
  ContactNumber : String
  ConfirmationDeadline : String
deriving DecidableEq, Repr

/-- Go `[]byte`. -/
abbrev Bytes := List UInt8

/-- A parsed `*template.Template`: `Execute` gives the bytes written to the
buffer and whether it returned without error. -/
structure Template where
  Execute : EmailTemplateData → Bytes × Bool

/-- The collaborators of `main` outside the program: the process environment,
the file system, `html/template`, the SMTP transport and the formatting of
times.  Calls whose result may change from one call to the next are indexed
by the number of earlier calls. -/
structure World where
  /-- The value `os.Getenv` returns for a key. -/
  Getenv : String → String
  /-- The records `readCSVfile` returns for a path. -/
  readCSVfile : String → List (List String)
  /-- The content the `k`-th `os.ReadFile("mail-template.html")` returns, `none`
  for an error. -/
  ReadFile : Nat → Option String
  /-- The result of `template.New("emailTemplate").Parse(text)`, `none` for an error
  (the returned pointer is then nil). -/
  Parse : String → Option Template
  /-- Whether the `k`-th `dialer.DialAndSend` succeeds. -/
  DialAndSend : Nat → Bool
  /-- Whether the `k`-th `os.WriteFile` succeeds. -/
  WriteFile : Nat → Bool
  /-- The text `t.Format(layout)` returns. -/
  Format : time.Time → String → String

/-- What `main` does to the outside, in order. -/
inductive Event
  | readTemplate (content : Option String)
  | render (data : EmailTemplateData) (output : Bytes)
  | send (recipient : String) (body : Bytes) (delivered : Bool)
  | write (path : String) (data : Bytes) (written : Bool)

/-- The state threaded through `main`: how many template reads, sends and file
writes have been made, and the events so far. -/
structure Run where
  reads : Nat
  sends : Nat
  writes : Nat
  trace : List Event

/-- `readHTMLTemplate` of `main.go`: the content of the template file, or ""
when the read fails. -/
def readHTMLTemplate (w : World) (st : Run) : String × Run :=
  let r := w.ReadFile st.reads
  let st := { st with reads := st.reads + 1, trace := st.trace ++ [Event.readTemplate r] }
  match r with
  | none => ("", st)
  | some htmlContent => (htmlContent, st)

/-- `parseEmailTemplate` of `main.go`.  When `Parse` fails the error is printed
and `tmpl` is nil, so that `tmpl.Execute` dereferences a nil pointer; an error
of `Execute` is printed and the buffer is returned as it is. -/
def parseEmailTemplate (w : World) (data : EmailTemplateData) (st : Run) :
    Except Failure (Bytes × Run) :=
  let rt := readHTMLTemplate w st
  match w.Parse rt.1 with
  | none => Except.error (Failure.panic Panic.nilPointerDereference)
  | some tmpl =>
    let templateBytes := (tmpl.Execute data).1
    Except.ok (templateBytes,
      { rt.2 with trace := rt.2.trace ++ [Event.render data templateBytes] })

/-- `sendEmail` of `main.go`: a failed `DialAndSend` is printed and the function
returns. -/
def sendEmail (w : World) (email : String) (template : Bytes) (st : Run) : Run :=
  { st with sends := st.sends + 1,
            trace := st.trace ++ [Event.send email template (w.DialAndSend st.sends)] }

/-- `writeTemplateFile` of `main.go`: a failed `WriteFile` is printed and the
function returns. -/
def writeTemplateFile (w : World) (outputFile : String) (data : Bytes) (st : Run) : Run :=
  { st with writes := st.writes + 1,
            trace := st.trace ++ [Event.write outputFile data (w.WriteFile st.writes)] }

/-- Go slice indexing `schedule[index]`. -/
def indexTime (times : List time.Time) (i : Nat) : Except Failure time.Time :=
  match times[i]? with
  | some t => Except.ok t
  | none => Except.error (Failure.panic (Panic.indexOutOfRange i times.length))

/-- The `EmailTemplateData` literal that `main` builds, twice, for a prospect. -/
def main.templateData (w : World) (prospect : Prospect) (appointmentTime deadline : time.Time) :
    EmailTemplateData :=
  { RecipientName := prospect.FirstName,
    CompanyName := w.Getenv "COMPANY_NAME",
    Date := w.Format appointmentTime "Monday, January 02, 2006",
    Time := w.Format appointmentTime "03:04 PM",
    Location := w.Getenv "COMPANY_ADDRESS",
    ContactName := w.Getenv "CONTACT_NAME",
    ContactNumber := w.Getenv "CONTACT_NUMBER",
    ConfirmationDeadline := w.Format deadline "Monday, January 02, 2006" ++ " before 3:00 PM" }

/-- The path of the archive file that `main` writes for a prospect. -/
def main.outputFile (index : Nat) (prospect : Prospect) : String :=
  "output/" ++ toString index ++ "-" ++ prospect.FirstName ++ "-" ++ prospect.LastName ++ ".html"

/-- The body of the loop `for index, prospect := range prospects` of `main`. -/
def main.body (w : World) (schedule deadlines : List time.Time) (index : Nat)
    (prospect : Prospect) (st : Run) : Except Failure Run := do
  let appointmentTime ← indexTime schedule index
  let deadline ← indexTime deadlines index
  let r1 ← parseEmailTemplate w (main.templateData w prospect appointmentTime deadline) st
  let st := sendEmail w prospect.Email r1.1 r1.2
  let r2 ← parseEmailTemplate w (main.templateData w prospect appointmentTime deadline) st
  return writeTemplateFile w (main.outputFile index prospect) r2.1 r2.2

/-- The loop of `main` over the prospects that are left. -/
def main.loop (w : World) (schedule deadlines : List time.Time) :
    Nat → List Prospect → Run → Except Failure Run
  | _, [], st => Except.ok st
  | index, prospect :: rest, st =>
    match main.body w schedule deadlines index prospect st with
    | Except.error e => Except.error e
    | Except.ok st => main.loop w schedule deadlines (index + 1) rest st

/-- The schedule and deadlines that `main` computes for `n` prospects. -/
def main.scheduleFor (n : Nat) : List time.Time × List time.Time :=
  generateSchedule (time.Date 2023 time.December 4 10 0 0 0 time.UTC) (2 * time.Hour) n

/-- The function `main` of package `main` (the result of loading `.env` is part
of the world). -/
def main.main (w : World) : Except Failure Run := do
  let startDate := time.Date 2023 time.December 4 10 0 0 0 time.UTC
  let interval := 2 * time.Hour
  let prospects ← loadProspectsFromCSV w.readCSVfile "data2.csv"
  let numProspects := prospects.length
  let sd := generateSchedule startDate interval numProspects
  main.loop w sd.1 sd.2 0 prospects ⟨0, 0, 0, []⟩

/-- The renders recorded in a trace. -/
def renders : List Event → List (EmailTemplateData × Bytes)
  | [] => []
  | Event.render data output :: rest => (data, output) :: renders rest
  | _ :: rest => renders rest

/-- A hand-off to one of the two sinks. -/
inductive Attempt
  | send (recipient : String)
  | archive (path : String)
deriving DecidableEq, Repr

/-- The send and archive attempts recorded in a trace, whatever their outcome. -/
def attempts : List Event → List Attempt
  | [] => []
  | Event.send recipient _ _ :: rest => Attempt.send recipient :: attempts rest
  | Event.write path _ _ :: rest => Attempt.archive path :: attempts rest
  | _ :: rest => attempts rest

/-- An excerpt of the zone table of America/New_York: EDT (UTC-4) until
2023-11-05 06:00 UTC, then EST (UTC-5), EDT again from 2024-03-10 07:00 UTC and
EST from 2024-11-03 06:00 UTC. -/
def NewYork : time.Location :=
  ⟨-14400, [⟨63834760800, -18000⟩, ⟨63845650800, -14400⟩, ⟨63866210400, -18000⟩],
    by decide, by decide⟩

/-- A world for examples: one record in `data2.csv`, a template file whose
content is stable, a template that renders the recipient name as bytes, and a
transport and file system whose calls all fail. -/
def exampleWorld (records : List (List String)) : World :=
  { Getenv := fun _ => "",
    readCSVfile := fun _ => records,
    ReadFile := fun _ => some "Dear {{.RecipientName}}",
    Parse := fun _ => some ⟨fun data => (data.RecipientName.data.map (fun c => c.toNat.toUInt8), true)⟩,
    DialAndSend := fun _ => false,
    WriteFile := fun _ => false,
    Format := fun _ layout => layout }

/-- Go's zero `time.Time`: January 1, year 1, 00:00:00 UTC. -/
def zeroTime : time.Time := ⟨0, 0, by decide, time.UTC⟩

/-- The bytes that the render after the `k`-th read of the template file
produces for `data`. -/
def renderOutput (w : World) (k : Nat) (data : EmailTemplateData) : Bytes :=
  match w.Parse ((w.ReadFile k).getD "") with
  | some tmpl => (tmpl.Execute data).1
  | none => []

/-- The events of the pass of the loop for the prospect at `index`: the template
is read and rendered, the output is sent; the template is read and rendered
again, and that second output is archived. -/
def prospectEvents (w : World) (schedule deadlines : List time.Time) (index : Nat)
    (prospect : Prospect) : List Event :=
  let data := main.templateData w prospect (schedule.getD index zeroTime)
    (deadlines.getD index zeroTime)
  [Event.readTemplate (w.ReadFile (2 * index)),
   Event.render data (renderOutput w (2 * index) data),
   Event.send prospect.Email (renderOutput w (2 * index) data) (w.DialAndSend index),
   Event.readTemplate (w.ReadFile (2 * index + 1)),
   Event.render data (renderOutput w (2 * index + 1) data),
   Event.write (main.outputFile index prospect) (renderOutput w (2 * index + 1) data)
     (w.WriteFile index)]

/-! ## Properties -/

theorem yearDay_spec (d : Int) : ∃ a b c e : Int,
    0 ≤ b ∧ b ≤ 3 ∧ 0 ≤ c ∧ c ≤ 24 ∧ 0 ≤ e ∧ e ≤ 3 ∧
    (absDate.yearDay d).1 = 400 * a + 100 * b + 4 * c + e + 1 ∧
    0 ≤ (absDate.yearDay d).2 ∧ (absDate.yearDay d).2 ≤ 365 ∧
    ((absDate.yearDay d).2 = 365 → e = 3 ∧ (c = 24 → b = 3)) ∧
    d = 146097 * a + 36524 * b + 1461 * c + 365 * e + (absDate.yearDay d).2 := by
  simp only [absDate.yearDay, daysPer400Years, daysPer100Years, daysPer4Years]
  norm_num only
  generalize ha : d / 146097 = a
  generalize hd1 : d - 146097 * a = d1
  generalize hg : d1 / 36524 = g
  generalize hb : g - g / 4 = b
  generalize hd2 : d1 - 36524 * b = d2
  generalize hc : d2 / 1461 = c
  generalize hd3 : d2 - 1461 * c = d3
  generalize hk : d3 / 365 = k
  generalize he : k - k / 4 = e
  refine ⟨a, b, c, e, ?_⟩
  have hg5 : g = 0 ∨ g = 1 ∨ g = 2 ∨ g = 3 ∨ g = 4 := by omega
  have hk5 : k = 0 ∨ k = 1 ∨ k = 2 ∨ k = 3 ∨ k = 4 := by omega
  rcases hg5 with h | h | h | h | h <;> rcases hk5 with h2 | h2 | h2 | h2 | h2 <;>
    subst h h2 <;> omega

theorem daysSinceEpoch_cycles (a b c e : Int) (hb0 : 0 ≤ b) (hb : b ≤ 3) (hc0 : 0 ≤ c)
    (hc : c ≤ 24) (he0 : 0 ≤ e) (he : e ≤ 3) :
    daysSinceEpoch (400 * a + 100 * b + 4 * c + e + 1) =
      146097 * a + 36524 * b + 1461 * c + 365 * e := by
  simp only [daysSinceEpoch, daysPer400Years, daysPer100Years, daysPer4Years]
  norm_num only
  omega

theorem isLeap_cycles (a b c e : Int) (hb0 : 0 ≤ b) (hb : b ≤ 3) (hc0 : 0 ≤ c)
    (hc : c ≤ 24) (he0 : 0 ≤ e) (he : e ≤ 3) (h : e = 3 ∧ (c = 24 → b = 3)) :
    isLeap (400 * a + 100 * b + 4 * c + e + 1) = true := by
  simp only [isLeap, Bool.and_eq_true, Bool.or_eq_true, beq_iff_eq, bne_iff_ne, ne_eq]
  omega

set_option maxRecDepth 100000 in
theorem monthDayOk_all :
    (List.range 366).all (fun n => monthDayOk true n) = true ∧
    (List.range 365).all (fun n => monthDayOk false n) = true := by
  constructor <;> decide

/-- The month and day that `absDate` reads off a day of the year lead `Date`
back to that day of the year. -/
theorem monthDay_spec (leap : Bool) (yday : Int) (h0 : 0 ≤ yday) (h1 : yday ≤ 365)
    (h2 : yday = 365 → leap = true) :
    (1 : Int) ≤ (absDate.monthDay leap yday).1 ∧ (absDate.monthDay leap yday).1 ≤ (12 : Int) ∧
    daysBefore ((absDate.monthDay leap yday).1 - 1) +
      (if leap && decide ((absDate.monthDay leap yday).1 ≥ 3) then 1 else 0) +
      ((absDate.monthDay leap yday).2 - 1) = yday := by
  obtain ⟨n, rfl⟩ := Int.eq_ofNat_of_zero_le h0
  have hok : monthDayOk leap n = true := by
    cases leap
    · have hn : n < 365 := by
        rcases Nat.lt_or_ge n 365 with h | h
        · exact h
        · exfalso
          have : (n : Int) = 365 := by omega
          simpa using h2 this
      exact List.all_eq_true.mp monthDayOk_all.2 n (List.mem_range.mpr hn)
    · have hn : n < 366 := by omega
      exact List.all_eq_true.mp monthDayOk_all.1 n (List.mem_range.mpr hn)
  simpa [monthDayOk, and_assoc] using hok

theorem norm_of_range (hi lo base : Int) (h0 : 0 ≤ lo) (h1 : lo < base) :
    time.norm hi lo base = (hi, lo) := by
  unfold time.norm
  have hn : ¬ lo < 0 := by omega
  simp only [hn, if_false]
  have hb : ¬ lo ≥ base := by omega
  simp only [hb, if_false]

/-- `absDate` yields a month in `1..12` and a date that `Date` counts back to
the same day number. -/
theorem absDate_days (abs : Int) :
    (1 : Int) ≤ (absDate abs).2.1 ∧ (absDate abs).2.1 ≤ (12 : Int) ∧
    daysSinceEpoch (absDate abs).1 + daysBefore ((absDate abs).2.1 - 1) +
      (if isLeap (absDate abs).1 && decide ((absDate abs).2.1 ≥ 3) then 1 else 0) +
      ((absDate abs).2.2.1 - 1) = abs / secondsPerDay := by
  obtain ⟨a, b, c, e, hb0, hb, hc0, hc, he0, he, hy, hd0, hd1, hleap, hsum⟩ :=
    yearDay_spec (abs / secondsPerDay)
  have hdse := daysSinceEpoch_cycles a b c e hb0 hb hc0 hc he0 he
  have hmd := monthDay_spec (isLeap (absDate.yearDay (abs / secondsPerDay)).1)
    (absDate.yearDay (abs / secondsPerDay)).2 hd0 hd1 (by
      intro h
      rw [hy]
      exact isLeap_cycles a b c e hb0 hb hc0 hc he0 he (hleap h))
  obtain ⟨m1, m12, hm⟩ := hmd
  have hdse2 : daysSinceEpoch (absDate.yearDay (abs / secondsPerDay)).1 =
      146097 * a + 36524 * b + 1461 * c + 365 * e := by
    rw [hy]
    exact hdse
  simp only [absDate]
  refine ⟨m1, m12, ?_⟩
  omega

/-- The offset that a lookup yields is the first offset or one of the table. -/
theorem scan_offset_mem (sec : Int) (tx : List zoneTrans) (o : Int) (s : Option Int) :
    (Location.lookup.scan sec o s tx).1 ∈ o :: tx.map zoneTrans.offset := by
  induction tx generalizing o s with
  | nil => simp [Location.lookup.scan]
  | cons tr rest ih =>
    simp only [Location.lookup.scan]
    split_ifs with h
    · simp
    · have h1 := ih tr.offset (some tr.when)
      simp only [List.map_cons, List.mem_cons] at h1 ⊢
      tauto

/-- Two instants on the same side of every transition are looked up alike. -/
theorem scan_congr (x y : Int) (tx : List zoneTrans) (o : Int) (s : Option Int)
    (h : ∀ tr ∈ tx, x < tr.when ↔ y < tr.when) :
    Location.lookup.scan x o s tx = Location.lookup.scan y o s tx := by
  induction tx generalizing o s with
  | nil => rfl
  | cons tr rest ih =>
    have h1 := h tr (List.mem_cons_self _ _)
    have h2 := ih tr.offset (some tr.when) (fun t ht => h t (List.mem_cons_of_mem _ ht))
    simp only [Location.lookup.scan]
    by_cases hx : x < tr.when
    · have hy := h1.mp hx
      simp only [hx, hy, if_true]
    · have hy : ¬ y < tr.when := fun hy => hx (h1.mpr hy)
      simp only [hx, hy, if_false]
      exact h2

/-- Past a transition at `w`, the period found starts at `w` or later. -/
theorem scan_start (x : Int) (tx : List zoneTrans) (o w : Int)
    (hasc : tx.Pairwise (fun a b => a.when < b.when)) (hw : ∀ tr ∈ tx, w < tr.when) :
    ∃ s, (Location.lookup.scan x o (some w) tx).2.1 = some s ∧ w ≤ s := by
  induction tx generalizing o w with
  | nil => exact ⟨w, rfl, le_refl _⟩
  | cons tr rest ih =>
    simp only [Location.lookup.scan]
    split_ifs with h
    · exact ⟨w, rfl, le_refl _⟩
    · obtain ⟨s, hs, hle⟩ := ih tr.offset tr.when (List.Pairwise.of_cons hasc)
        (fun t ht => List.rel_of_pairwise_cons hasc ht)
      have h3 := hw tr (List.mem_cons_self _ _)
      exact ⟨s, hs, by omega⟩

/-- An instant inside the period found for `x` is looked up like `x`. -/
theorem scan_coherent (x u : Int) (tx : List zoneTrans) (o : Int) (s : Option Int)
    (hasc : tx.Pairwise (fun a b => a.when < b.when))
    (hin : Location.outside u (Location.lookup.scan x o s tx).2.1
      (Location.lookup.scan x o s tx).2.2 = false) :
    Location.lookup.scan u o s tx = Location.lookup.scan x o s tx := by
  induction tx generalizing o s with
  | nil => rfl
  | cons tr rest ih =>
    simp only [Location.lookup.scan] at hin ⊢
    by_cases hx : x < tr.when
    · simp only [hx, if_true] at hin ⊢
      simp only [Location.outside, Bool.or_eq_false_iff, decide_eq_false_iff_not] at hin
      have hu : u < tr.when := by omega
      simp only [hu, if_true]
    · simp only [hx, if_false] at hin ⊢
      obtain ⟨s1, hs1, hle⟩ := scan_start x rest tr.offset tr.when (List.Pairwise.of_cons hasc)
        (fun t ht => List.rel_of_pairwise_cons hasc ht)
      have hu : ¬ u < tr.when := by
        intro hu
        rw [hs1] at hin
        simp only [Location.outside, Bool.or_eq_false_iff, decide_eq_false_iff_not] at hin
        omega
      simp only [hu, if_false]
      exact ih tr.offset (some tr.when) (List.Pairwise.of_cons hasc) hin

theorem lookup_offset_mem (l : Location) (x : Int) :
    (l.lookup x).1 ∈ l.zone0 :: l.tx.map zoneTrans.offset :=
  scan_offset_mem x l.tx l.zone0 none

/-- An evening reading (16:00 or later) is on the same side of every
transition whichever offset of the location is taken off it. -/
theorem lookup_evening (l : Location) (G o1 o2 : Int) (hG : 57600 ≤ G % 86400)
    (h1 : o1 ∈ l.zone0 :: l.tx.map zoneTrans.offset)
    (h2 : o2 ∈ l.zone0 :: l.tx.map zoneTrans.offset) :
    l.lookup (G - o1) = l.lookup (G - o2) := by
  apply scan_congr
  intro tr htr
  obtain ⟨a1, a2⟩ := l.morning tr htr o1 h1
  obtain ⟨b1, b2⟩ := l.morning tr htr o2 h2
  omega

/-- For an evening reading `time.Date` finds an instant that reads it. -/
theorem adjust_evening (l : Location) (G : Int) (hG : 57600 ≤ G % 86400) :
    l.adjust G + (l.lookup (l.adjust G)).1 = G := by
  by_cases h0 : (l.lookup G).1 = 0
  · have hE : l.adjust G = G := by
      simp only [Location.adjust, h0, ne_eq, not_true_eq_false, if_false]
    rw [hE, h0]
    omega
  · by_cases hout : Location.outside (G - (l.lookup G).1) (l.lookup G).2.1 (l.lookup G).2.2 = true
    · have hE : l.adjust G = G - (l.lookup (G - (l.lookup G).1)).1 := by
        simp only [Location.adjust, ne_eq, h0, not_false_eq_true, if_true, hout]
      have h3 := lookup_evening l G (l.lookup (G - (l.lookup G).1)).1 (l.lookup G).1 hG
        (lookup_offset_mem _ _) (lookup_offset_mem _ _)
      rw [hE, h3]
      omega
    · have hout2 : Location.outside (G - (l.lookup G).1) (l.lookup G).2.1 (l.lookup G).2.2
          = false := by
        simpa using hout
      have hE : l.adjust G = G - (l.lookup G).1 := by
        simp only [Location.adjust, ne_eq, h0, not_false_eq_true, if_true, hout2]
        simp
      have h3 : l.lookup (G - (l.lookup G).1) = l.lookup G :=
        scan_coherent G (G - (l.lookup G).1) l.tx l.zone0 none l.ascending hout2
      rw [hE, h3]
      omega

theorem lookup_fixed (l : Location) (h : l.tx = []) (x : Int) :
    l.lookup x = (l.zone0, none, none) := by
  simp only [Location.lookup, h, Location.lookup.scan]

/-- In a location without transitions `time.Date` takes the one offset off. -/
theorem adjust_fixed (l : Location) (h : l.tx = []) (G : Int) : l.adjust G = G - l.zone0 := by
  by_cases h0 : l.zone0 = 0
  · simp [Location.adjust, lookup_fixed l h, h0]
  · simp [Location.adjust, lookup_fixed l h, Location.outside, h0]

theorem abs_fixed (t : Time) (h : t.loc.tx = []) : t.abs = t.sec + t.loc.zone0 := by
  simp only [Time.abs, lookup_fixed t.loc h]

theorem abs_utc (t : Time) (h : t.loc = UTC) : t.abs = t.sec := by
  rw [abs_fixed t (by rw [h]; rfl), h]
  simp [UTC]

/-- The second count of a `Date` whose fields are already in range. -/
theorem Date_sec (year month day hour min sec nsec : Int) (loc : Location)
    (hm1 : 1 ≤ month) (hm12 : month ≤ 12) (hh0 : 0 ≤ hour) (hh : hour < 24)
    (hmi0 : 0 ≤ min) (hmi : min < 60) (hs0 : 0 ≤ sec) (hs : sec < 60)
    (hn0 : 0 ≤ nsec) (hn : nsec < 1000000000) :
    (Date year month day hour min sec nsec loc).sec = loc.adjust
      ((daysSinceEpoch year + daysBefore (month - 1) +
        (if isLeap year && decide (month ≥ 3) then 1 else 0) + (day - 1)) * 86400 +
        (hour * 3600 + min * 60 + sec)) ∧
    (Date year month day hour min sec nsec loc).nsec = nsec.toNat ∧
    (Date year month day hour min sec nsec loc).loc = loc := by
  unfold Date
  simp only [norm_of_range year (month - 1) 12 (by omega) (by omega),
    norm_of_range sec nsec 1000000000 hn0 hn, norm_of_range min sec 60 hs0 hs,
    norm_of_range hour min 60 hmi0 hmi, norm_of_range day hour 24 hh0 hh,
    secondsPerDay, secondsPerHour, secondsPerMinute, sub_add_cancel]
  refine ⟨?_, trivial, trivial⟩
  congr 1
  split_ifs <;> omega

theorem absClock_range (abs : Int) :
    0 ≤ (absClock abs).1 ∧ (absClock abs).1 < 24 ∧ 0 ≤ (absClock abs).2.1 ∧
    (absClock abs).2.1 < 60 ∧ 0 ≤ (absClock abs).2.2 ∧ (absClock abs).2.2 < 60 ∧
    (absClock abs).1 * 3600 + (absClock abs).2.1 * 60 + (absClock abs).2.2 = abs % 86400 := by
  simp only [absClock, secondsPerDay, secondsPerHour, secondsPerMinute]
  norm_num only
  omega

/-- `AddDate(0, 0, days)` moves the local clock reading by whole days and hands
it to the last step of `time.Date`; the nanoseconds and the location are kept. -/
theorem AddDate_days (t : Time) (days : Int) :
    t.AddDate 0 0 days = ⟨t.loc.adjust (t.abs + 86400 * days), t.nsec, t.nsec_lt, t.loc⟩ := by
  obtain ⟨m1, m12, hd⟩ := absDate_days t.abs
  obtain ⟨c1, c2, c3, c4, c5, c6, hc⟩ := absClock_range t.abs
  have hdate := Date_sec ((absDate t.abs).1 + 0) ((absDate t.abs).2.1 + 0)
    ((absDate t.abs).2.2.1 + days) (absClock t.abs).1 (absClock t.abs).2.1 (absClock t.abs).2.2
    (t.nsec : Int) t.loc (by omega) (by omega) c1 c2 c3 c4 c5 c6 (by omega)
    (by have := t.nsec_lt; omega)
  obtain ⟨hs, hn, hl⟩ := hdate
  have hE : t.AddDate 0 0 days = Date ((absDate t.abs).1 + 0) ((absDate t.abs).2.1 + 0)
    ((absDate t.abs).2.2.1 + days) (absClock t.abs).1 (absClock t.abs).2.1 (absClock t.abs).2.2
    (t.nsec : Int) t.loc := rfl
  rw [hE]
  apply Time.ext
  · rw [hs]
    show t.loc.adjust _ = t.loc.adjust (t.abs + 86400 * days)
    congr 1
    simp only [add_zero]
    simp only [secondsPerDay, secondsPerHour, secondsPerMinute] at hd
    norm_num only at hd
    omega
  · rw [hn]
    simp
  · exact hl

/-- In a location without transitions `AddDate(0, 0, days)` moves the instant
by `days` times 86400 seconds. -/
theorem AddDate_fixed (t : Time) (days : Int) (h : t.loc.tx = []) :
    t.AddDate 0 0 days = ⟨t.sec + 86400 * days, t.nsec, t.nsec_lt, t.loc⟩ := by
  rw [AddDate_days]
  apply Time.ext
  · show t.loc.adjust (t.abs + 86400 * days) = t.sec + 86400 * days
    rw [adjust_fixed t.loc h, abs_fixed t h]
    omega
  · rfl
  · rfl

theorem Hour_evening (t : Time) (h : t.Hour ≥ 16) : 57600 ≤ t.abs % 86400 := by
  simp only [Time.Hour, secondsPerDay, secondsPerHour, secondsPerMinute] at h
  norm_num only at h
  omega

/-- From an evening reading `AddDate(0, 0, days)` reaches the same reading
`days` days later. -/
theorem AddDate_abs_evening (t : Time) (days : Int) (h : t.Hour ≥ 16) :
    (t.AddDate 0 0 days).abs = t.abs + 86400 * days := by
  have hG : 57600 ≤ (t.abs + 86400 * days) % 86400 := by
    have := Hour_evening t h
    omega
  rw [AddDate_days]
  exact adjust_evening t.loc (t.abs + 86400 * days) hG

theorem adjust_utc (G : Int) : UTC.adjust G = G := by
  rw [adjust_fixed UTC rfl]
  simp [UTC]

/-- Rebuilding a time at 10:00:00 UTC on its own (local) calendar date. -/
theorem Date_at_ten (t : Time) :
    Date t.Year t.Month t.Day 10 0 0 0 UTC =
      ⟨(t.abs / 86400) * 86400 + 36000, 0, by decide, UTC⟩ := by
  obtain ⟨m1, m12, hd⟩ := absDate_days t.abs
  obtain ⟨hs, hn, hl⟩ := Date_sec t.Year t.Month t.Day 10 0 0 0 UTC m1 m12 (by decide)
    (by decide) (by decide) (by decide) (by decide) (by decide) (by decide) (by decide)
  apply Time.ext
  · rw [hs, adjust_utc]
    simp only [secondsPerDay, secondsPerHour, secondsPerMinute] at hd
    norm_num only at hd
    simp only [Time.Year, Time.Month, Time.Day]
    omega
  · rw [hn]
    rfl
  · exact hl

theorem rollover_eq (cur : Time) (h : cur.Hour ≥ 16) :
    Date (cur.AddDate 0 0 1).Year (cur.AddDate 0 0 1).Month (cur.AddDate 0 0 1).Day 10 0 0 0 UTC
      = nextDayAtTen cur := by
  rw [Date_at_ten, AddDate_abs_evening cur 1 h]
  apply Time.ext
  · simp only [nextDayAtTen]
    omega
  · rfl
  · rfl

theorem body_eq (interval : Duration) (cur : Time) (S D : List Time) :
    generateSchedule.body interval (cur, S, D) =
      ((businessHoursRule cur).Add interval, S ++ [businessHoursRule cur],
        D ++ [(businessHoursRule cur).AddDate 0 0 (-1)]) := by
  have hr : (if cur.Hour ≥ 16 then
      Date (cur.AddDate 0 0 1).Year (cur.AddDate 0 0 1).Month (cur.AddDate 0 0 1).Day 10 0 0 0 UTC
      else cur) = businessHoursRule cur := by
    unfold businessHoursRule
    split_ifs with h16
    · exact rollover_eq cur h16
    · rfl
  simp only [generateSchedule.body, hr]

theorem loop_eq (interval : Duration) (k : Nat) (cur : Time) (S D : List Time) :
    (generateSchedule.loop interval k (cur, S, D)).2 =
      (S ++ appointments interval k cur,
        D ++ (appointments interval k cur).map (fun t => t.AddDate 0 0 (-1))) := by
  induction k generalizing cur S D with
  | zero => simp [generateSchedule.loop, appointments]
  | succ k ih =>
    rw [generateSchedule.loop, body_eq, ih]
    simp [appointments]

theorem generateSchedule_eq (start : Time) (interval : Duration) (numProspects : Int) :
    generateSchedule start interval numProspects =
      (appointments interval numProspects.toNat start,
        (appointments interval numProspects.toNat start).map (fun t => t.AddDate 0 0 (-1))) := by
  have h := loop_eq interval numProspects.toNat start [] []
  simp only [List.nil_append] at h
  simp only [generateSchedule, h]

theorem appointments_length (interval : Duration) (k : Nat) (cur : Time) :
    (appointments interval k cur).length = k := by
  induction k generalizing cur with
  | zero => rfl
  | succ k ih => simp [appointments, ih]

theorem appointments_head (interval : Duration) (k : Nat) (cur : Time)
    (h : 0 < (appointments interval k cur).length) :
    (appointments interval k cur)[0] = businessHoursRule cur := by
  cases k with
  | zero => simp [appointments] at h
  | succ k => simp [appointments]

theorem appointments_succ (interval : Duration) (k : Nat) (cur : Time) (i : Nat)
    (h : i + 1 < (appointments interval k cur).length) :
    (appointments interval k cur)[i + 1] =
      businessHoursRule (((appointments interval k cur)[i]).Add interval) := by
  induction k generalizing cur i with
  | zero => simp [appointments] at h
  | succ k ih =>
    cases i with
    | zero =>
      simp only [appointments, List.getElem_cons_succ, List.getElem_cons_zero]
      exact appointments_head interval k _ _
    | succ j =>
      simp only [appointments, List.getElem_cons_succ]
      exact ih _ j _

theorem tmod_billion_bounds (d : Int) :
    -1000000000 < d.tmod 1000000000 ∧ d.tmod 1000000000 < 1000000000 ∧
    d.tmod 1000000000 + 1000000000 * d.tdiv 1000000000 = d := by
  refine ⟨?_, Int.tmod_lt_of_pos d (by decide), Int.tmod_add_tdiv d 1000000000⟩
  rcases Int.le_total 0 d with h | h
  · have := Int.tmod_nonneg 1000000000 h
    omega
  · have h3 := Int.tmod_lt_of_pos (-d) (show (0 : Int) < 1000000000 by decide)
    have h4 : (-d).tmod 1000000000 = -(d.tmod 1000000000) := by
      rw [Int.tmod_def, Int.tmod_def, Int.neg_tdiv]
      omega
    omega

/-- When the exact sum is an `int64`, `addSec` yields it. -/
theorem addSec_exact (sec d : Int) (h1 : -9223372036854775808 ≤ sec)
    (h2 : sec ≤ 9223372036854775807) (h3 : -9223372036854775808 ≤ sec + d)
    (h4 : sec + d ≤ 9223372036854775807) : Time.addSec sec d = sec + d := by
  have hw : wrapInt64 (sec + d) = sec + d := by
    unfold wrapInt64
    omega
  simp only [Time.addSec, hw]
  have hc : decide (sec + d > sec) = decide (d > 0) := by
    by_cases hd : d > 0
    · have : sec + d > sec := by omega
      simp [hd, this]
    · have : ¬ sec + d > sec := by omega
      simp [hd, this]
  simp only [hc, if_true]

theorem Add_loc (t : Time) (d : Duration) : (t.Add d).loc = t.loc := rfl

/-- While the second counter does not overflow, `Add` moves the instant by
exactly `d` nanoseconds. -/
theorem Add_nanos (t : Time) (d : Duration) (h1 : -9223372036854775807 ≤ t.sec)
    (h2 : t.sec ≤ 9223372036854775807)
    (h3 : -9223372036854775807 ≤ t.sec + d.tdiv 1000000000)
    (h4 : t.sec + d.tdiv 1000000000 + 1 ≤ 9223372036854775807) :
    (t.Add d).nanos = t.nanos + d := by
  obtain ⟨b1, b2, b3⟩ := tmod_billion_bounds d
  have hn := t.nsec_lt
  simp only [Time.Add, Time.nanos]
  split_ifs with c1 c2
  · rw [addSec_exact t.sec (d.tdiv 1000000000 + 1) (by omega) h2 (by omega) (by omega)]
    omega
  · rw [addSec_exact t.sec (d.tdiv 1000000000 - 1) (by omega) h2 (by omega) (by omega)]
    omega
  · rw [addSec_exact t.sec (d.tdiv 1000000000) (by omega) h2 (by omega) (by omega)]
    omega

theorem Before_iff (t u : Time) : t.Before u = true ↔ t.nanos < u.nanos := by
  have h1 := t.nsec_lt
  have h2 := u.nsec_lt
  simp only [Time.Before, Time.nanos, Bool.or_eq_true, Bool.and_eq_true, decide_eq_true_eq]
  omega

theorem Equal_iff (t u : Time) : t.Equal u = true ↔ t.nanos = u.nanos := by
  have h1 := t.nsec_lt
  have h2 := u.nsec_lt
  simp only [Time.Equal, Time.nanos, Bool.and_eq_true, decide_eq_true_eq]
  omega

/-- In UTC the business-hours rule never moves a candidate to an earlier instant. -/
theorem rule_utc (c : Time) (h : c.loc = UTC) :
    (businessHoursRule c).loc = UTC ∧ c.nanos ≤ (businessHoursRule c).nanos := by
  unfold businessHoursRule
  split_ifs with h16
  · refine ⟨rfl, ?_⟩
    have hn := c.nsec_lt
    simp only [nextDayAtTen, Time.nanos, abs_utc c h]
    omega
  · exact ⟨h, le_refl _⟩

/-- The rule leaves a candidate in its location or moves it to UTC. -/
theorem rule_fixed (c : Time) (h : c.loc.tx = []) : (businessHoursRule c).loc.tx = [] := by
  unfold businessHoursRule
  split_ifs with h16
  · rfl
  · exact h

theorem appointments_loc (interval : Duration) (k : Nat) (cur : Time) (h : cur.loc = UTC) :
    ∀ a ∈ appointments interval k cur, a.loc = UTC := by
  induction k generalizing cur with
  | zero => simp [appointments]
  | succ k ih =>
    intro a ha
    simp only [appointments, List.mem_cons] at ha
    rcases ha with ha | ha
    · rw [ha]
      exact (rule_utc cur h).1
    · exact ih _ (by rw [Add_loc]; exact (rule_utc cur h).1) a ha

theorem appointments_fixed (interval : Duration) (k : Nat) (cur : Time)
    (h : cur.loc.tx = []) : ∀ a ∈ appointments interval k cur, a.loc.tx = [] := by
  induction k generalizing cur with
  | zero => simp [appointments]
  | succ k ih =>
    intro a ha
    simp only [appointments, List.mem_cons] at ha
    rcases ha with ha | ha
    · rw [ha]
      exact rule_fixed cur h
    · exact ih _ (by rw [Add_loc]; exact rule_fixed cur h) a ha

theorem appointments_increasing (interval : Duration) (k : Nat) (cur : Time)
    (h : cur.loc = UTC) (hpos : 0 < interval) (i : Nat)
    (hi : i + 1 < (appointments interval k cur).length)
    (hlo : absoluteEpoch ≤ ((appointments interval k cur)[i]).sec)
    (hhi : ((appointments interval k cur)[i]).sec + interval.tdiv 1000000000 + 86400
      ≤ maxInt64) :
    ((appointments interval k cur)[i]).nanos < ((appointments interval k cur)[i + 1]).nanos := by
  rw [appointments_succ interval k cur i hi]
  have hmem : (appointments interval k cur)[i] ∈ appointments interval k cur :=
    List.getElem_mem _
  have hloc := appointments_loc interval k cur h _ hmem
  have hpos2 : (0 : Int) < interval := hpos
  obtain ⟨b1, b2, b3⟩ := tmod_billion_bounds interval
  have hq : (0 : Int) ≤ interval.tdiv 1000000000 := by omega
  simp only [absoluteEpoch] at hlo
  simp only [maxInt64] at hhi
  have hadd := Add_nanos ((appointments interval k cur)[i]) interval (by omega) (by omega)
    (by omega) (by omega)
  have hrule := rule_utc (((appointments interval k cur)[i]).Add interval)
    (by rw [Add_loc]; exact hloc)
  omega

/-- `nextDayAtTen` reads 10:00:00.000000000 in UTC, on the day number that
follows the candidate's. -/
theorem nextDayAtTen_reading (c : Time) :
    (nextDayAtTen c).Clock = (10, 0, 0) ∧ (nextDayAtTen c).nsec = 0 ∧
    (nextDayAtTen c).loc = UTC ∧ (nextDayAtTen c).abs / 86400 = c.abs / 86400 + 1 := by
  have habs : (nextDayAtTen c).abs = (c.abs / 86400 + 1) * 86400 + 10 * 3600 :=
    abs_utc (nextDayAtTen c) rfl
  have hmod : ((c.abs / 86400 + 1) * 86400 + 36000) % 86400 = 36000 := by
    omega
  refine ⟨?_, rfl, rfl, ?_⟩
  · simp only [Time.Clock, absClock, habs, secondsPerDay, secondsPerHour, secondsPerMinute]
    norm_num only
    rw [hmod]
    norm_num
  · rw [habs]
    omega

/-- C1: every appointment is its candidate passed through the business-hours
rule: slot 0 has candidate `start`, slot `i + 1` has candidate `schedule[i] + interval`;
a candidate whose hour is at least 16 becomes 10:00:00 on the next calendar
day, any other candidate is kept.  The example of the specification (10:00,
2h, 4 slots) and the 16:00 / 15:59 boundary are evaluated as well. -/
theorem generateSchedule_business_hours :
    (∀ (start : Time) (interval : Duration) (count : Int),
      (∀ h : 0 < (generateSchedule start interval count).1.length,
        (generateSchedule start interval count).1[0] = businessHoursRule start) ∧
      (∀ (i : Nat) (h : i + 1 < (generateSchedule start interval count).1.length),
        (generateSchedule start interval count).1[i + 1] =
          businessHoursRule (((generateSchedule start interval count).1[i]).Add interval))) ∧
    (∀ c : Time, businessHoursRule c = if c.Hour ≥ 16 then nextDayAtTen c else c) ∧
    (∀ c : Time, (nextDayAtTen c).Clock = (10, 0, 0) ∧ (nextDayAtTen c).nsec = 0 ∧
      (nextDayAtTen c).loc = UTC ∧ (nextDayAtTen c).abs / 86400 = c.abs / 86400 + 1) ∧
    (generateSchedule (Date 2023 December 4 10 0 0 0 UTC) (2 * Hour) 4).1 =
      [Date 2023 December 4 10 0 0 0 UTC, Date 2023 December 4 12 0 0 0 UTC,
       Date 2023 December 4 14 0 0 0 UTC, Date 2023 December 5 10 0 0 0 UTC] ∧
    (generateSchedule (Date 2023 December 4 16 0 0 0 UTC) (2 * Hour) 1).1 =
      [Date 2023 December 5 10 0 0 0 UTC] ∧
    (generateSchedule (Date 2023 December 4 15 59 0 0 UTC) (2 * Hour) 1).1 =
      [Date 2023 December 4 15 59 0 0 UTC] := by
  refine ⟨?_, fun _ => rfl, nextDayAtTen_reading, by decide, by decide, by decide⟩
  intro start interval count
  rw [generateSchedule_eq]
  exact ⟨fun h => appointments_head _ _ _ h, fun i h => appointments_succ _ _ _ i h⟩

/-- C2: for a count that is not negative, both returned lists have exactly
`count` entries; for `count = 0` both are empty. -/
theorem generateSchedule_length (start : Time) (interval : Duration) (count : Int)
    (hcount : 0 ≤ count) :
    ((generateSchedule start interval count).1.length : Int) = count ∧
    ((generateSchedule start interval count).2.length : Int) = count ∧
    generateSchedule start interval 0 = ([], []) := by
  rw [generateSchedule_eq]
  have hc : (0 : Int) ≤ count := hcount
  refine ⟨?_, ?_, rfl⟩
  · rw [appointments_length]
    omega
  · rw [List.length_map, appointments_length]
    omega

theorem generateSchedule_length_witness :
    (0 : Int) ≤ 4 ∧
    ((generateSchedule (Date 2023 December 4 10 0 0 0 UTC) (2 * Hour) 4).1.length : Int) = 4 ∧
    ((generateSchedule (Date 2023 December 4 10 0 0 0 UTC) (2 * Hour) 4).2.length : Int) = 4 ∧
    generateSchedule (Date 2023 December 4 10 0 0 0 UTC) (2 * Hour) 0 = ([], []) :=
  ⟨by decide,
    generateSchedule_length (Date 2023 December 4 10 0 0 0 UTC) (2 * Hour) 4 (by decide)⟩

/-- C3, as the specification states it, fails in a location with a daylight
saving transition: the appointment 2024-03-11 02:30 in New York has the deadline
2024-03-10 01:30, since 02:30 is skipped on that date; the deadline is not the
same time of day on the previous calendar date. -/
theorem generateSchedule_deadline_skipped_hour :
    generateSchedule (Date 2024 3 11 2 30 0 0 NewYork) (2 * Hour) 1 =
      ([Date 2024 3 11 2 30 0 0 NewYork], [Date 2024 3 10 1 30 0 0 NewYork]) ∧
    (Date 2024 3 11 2 30 0 0 NewYork).Date = (2024, 3, 11) ∧
    (Date 2024 3 11 2 30 0 0 NewYork).Clock = (2, 30, 0) ∧
    (Date 2024 3 10 1 30 0 0 NewYork).Date = (2024, 3, 10) ∧
    (Date 2024 3 10 1 30 0 0 NewYork).Clock = (1, 30, 0) ∧
    oneCalendarDayEarlier (Date 2024 3 10 1 30 0 0 NewYork)
      (Date 2024 3 11 2 30 0 0 NewYork) = false := by
  decide

/-- C3 amended: every deadline is `AddDate(0, 0, -1)` of its appointment; when
the start time is in a location without zone transitions (UTC or a fixed
offset) and both times lie in the range of the calendar, this is the instant
86400 seconds earlier, which reads the same time of day on the previous
calendar date in the same location. -/
theorem generateSchedule_deadlines (start : Time) (interval : Duration) (count : Int)
    (hfixed : start.loc.tx = []) (i : Nat)
    (h1 : i < (generateSchedule start interval count).1.length)
    (h2 : i < (generateSchedule start interval count).2.length)
    (hs : ((generateSchedule start interval count).1[i]).inRange = true)
    (hd : ((generateSchedule start interval count).2[i]).inRange = true) :
    (generateSchedule start interval count).2 =
      (generateSchedule start interval count).1.map (fun t => t.AddDate 0 0 (-1)) ∧
    ((generateSchedule start interval count).2[i]).sec =
      ((generateSchedule start interval count).1[i]).sec - 86400 ∧
    oneCalendarDayEarlier ((generateSchedule start interval count).2[i])
      ((generateSchedule start interval count).1[i]) = true := by
  have key : ∀ (p : List Time × List Time)
      (hp : p = (appointments interval count.toNat start,
        (appointments interval count.toNat start).map (fun t => t.AddDate 0 0 (-1))))
      (k1 : i < p.1.length) (k2 : i < p.2.length),
      p.2 = p.1.map (fun t => t.AddDate 0 0 (-1)) ∧ (p.2[i]).sec = (p.1[i]).sec - 86400 ∧
        oneCalendarDayEarlier (p.2[i]) (p.1[i]) = true := by
    intro p hp k1 k2
    subst hp
    have hmem : (appointments interval count.toNat start)[i] ∈
        appointments interval count.toNat start := List.getElem_mem _
    have hfx := appointments_fixed interval count.toNat start hfixed _ hmem
    refine ⟨rfl, ?_, ?_⟩
    · simp only [List.getElem_map]
      rw [AddDate_fixed _ _ hfx]
      show _ + 86400 * (-1) = _
      omega
    · simp only [List.getElem_map]
      rw [AddDate_fixed _ _ hfx]
      generalize (appointments interval count.toNat start)[i] = t at hfx
      have ha : t.abs = t.sec + t.loc.zone0 := abs_fixed t hfx
      have hb : (⟨t.sec + 86400 * (-1), t.nsec, t.nsec_lt, t.loc⟩ : Time).abs =
          t.sec + 86400 * (-1) + t.loc.zone0 := abs_fixed _ hfx
      simp only [oneCalendarDayEarlier, Time.Clock, absClock, hb, ha, secondsPerDay,
        secondsPerHour, secondsPerMinute, Bool.and_eq_true, decide_eq_true_eq]
      have hm : (t.sec + 86400 * (-1) + t.loc.zone0) % (24 * (60 * 60)) =
          (t.sec + t.loc.zone0) % (24 * (60 * 60)) := by omega
      rw [hm]
      repeat' constructor
      omega
  exact key _ (generateSchedule_eq start interval count) h1 h2

theorem generateSchedule_deadlines_witness :
    (generateSchedule (Date 2023 December 4 10 0 0 0 UTC) (2 * Hour) 4).2 =
      (generateSchedule (Date 2023 December 4 10 0 0 0 UTC) (2 * Hour) 4).1.map
        (fun t => t.AddDate 0 0 (-1)) ∧
    ((generateSchedule (Date 2023 December 4 10 0 0 0 UTC) (2 * Hour) 4).2[3]).sec =
      ((generateSchedule (Date 2023 December 4 10 0 0 0 UTC) (2 * Hour) 4).1[3]).sec - 86400 ∧
    oneCalendarDayEarlier ((generateSchedule (Date 2023 December 4 10 0 0 0 UTC) (2 * Hour) 4).2[3])
      ((generateSchedule (Date 2023 December 4 10 0 0 0 UTC) (2 * Hour) 4).1[3]) = true :=
  generateSchedule_deadlines (Date 2023 December 4 10 0 0 0 UTC) (2 * Hour) 4 rfl 3
    (by decide) (by decide) (by decide) (by decide)

/-- C4, as the specification states it, fails at the end of the second counter:
from the last nanosecond of the largest second, in UTC, with an interval of one
nanosecond, `Add` saturates the seconds and still resets the nanoseconds, so
the second appointment is before the first. -/
theorem generateSchedule_saturated_goes_back :
    (⟨maxInt64, 999999999, by decide, UTC⟩ : Time).loc = UTC ∧
    (0 : Duration) < Nanosecond ∧
    (generateSchedule ⟨maxInt64, 999999999, by decide, UTC⟩ Nanosecond 2).1 =
      [⟨maxInt64, 999999999, by decide, UTC⟩, ⟨maxInt64, 0, by decide, UTC⟩] ∧
    (⟨maxInt64, 999999999, by decide, UTC⟩ : Time).Before ⟨maxInt64, 0, by decide, UTC⟩ = false ∧
    (⟨maxInt64, 999999999, by decide, UTC⟩ : Time).Equal ⟨maxInt64, 0, by decide, UTC⟩ = false ∧
    (⟨maxInt64, 0, by decide, UTC⟩ : Time).Before ⟨maxInt64, 999999999, by decide, UTC⟩ = true := by
  decide

/-- C4 amended: with a start time in UTC and a positive interval, an
appointment that lies in the range of the calendar and is more than the
interval plus one day before the largest second is before its successor. -/
theorem generateSchedule_nondecreasing (start : Time) (interval : Duration) (count : Int)
    (hutc : start.loc = UTC) (hpos : 0 < interval) (i : Nat)
    (h : i + 1 < (generateSchedule start interval count).1.length)
    (hlo : absoluteEpoch ≤ ((generateSchedule start interval count).1[i]).sec)
    (hhi : ((generateSchedule start interval count).1[i]).sec + interval.tdiv 1000000000 + 86400
      ≤ maxInt64) :
    ((generateSchedule start interval count).1[i]).Before
        ((generateSchedule start interval count).1[i + 1]) = true := by
  rw [Before_iff]
  have key : ∀ (l : List Time) (hl : l = appointments interval count.toNat start)
      (h2 : i + 1 < l.length) (k1 : absoluteEpoch ≤ (l[i]).sec)
      (k2 : (l[i]).sec + interval.tdiv 1000000000 + 86400 ≤ maxInt64),
      (l[i]).nanos < (l[i + 1]).nanos := by
    intro l hl h2 k1 k2
    subst hl
    exact appointments_increasing interval count.toNat start hutc hpos i h2 k1 k2
  exact key _ (by rw [generateSchedule_eq]) h hlo hhi

theorem generateSchedule_nondecreasing_witness :
    ((generateSchedule (Date 2023 December 4 10 0 0 0 UTC) (2 * Hour) 4).1[2]).Before
        ((generateSchedule (Date 2023 December 4 10 0 0 0 UTC) (2 * Hour) 4).1[3]) = true :=
  generateSchedule_nondecreasing (Date 2023 December 4 10 0 0 0 UTC) (2 * Hour) 4 rfl
    (by decide) 2 (by decide) (by decide) (by decide)

/-- C5, as the specification states it, fails: with interval 0 and two slots the
call returns a schedule (twice the start time) and no `InvalidArgument`. -/
theorem generateSchedule_zero_interval_returns :
    (0 : Duration) ≤ 0 ∧
    generateSchedule.call (Date 2023 December 4 10 0 0 0 UTC) 0 2 =
      Except.ok ([Date 2023 December 4 10 0 0 0 UTC, Date 2023 December 4 10 0 0 0 UTC],
        [Date 2023 December 3 10 0 0 0 UTC, Date 2023 December 3 10 0 0 0 UTC]) ∧
    generateSchedule.call (Date 2023 December 4 10 0 0 0 UTC) 0 2 ≠
      Except.error (Failure.reported ErrorKind.InvalidArgument) := by
  refine ⟨le_refl _, ?_, ?_⟩
  · have h : generateSchedule (Date 2023 December 4 10 0 0 0 UTC) 0 2 =
        ([Date 2023 December 4 10 0 0 0 UTC, Date 2023 December 4 10 0 0 0 UTC],
          [Date 2023 December 3 10 0 0 0 UTC, Date 2023 December 3 10 0 0 0 UTC]) := by
      decide
    simp only [generateSchedule.call, h]
  · intro h
    cases h

/-- C5 amended: an interval that is zero or negative is not rejected; the call
returns normally, with one appointment and one deadline per requested slot. -/
theorem generateSchedule_nonpositive_interval (start : Time) (interval : Duration)
    (count : Int) (hint : interval ≤ 0) :
    ∃ schedule deadlines : List Time,
      generateSchedule.call start interval count = Except.ok (schedule, deadlines) ∧
      schedule.length = count.toNat ∧ deadlines.length = count.toNat := by
  refine ⟨(generateSchedule start interval count).1, (generateSchedule start interval count).2,
    rfl, ?_, ?_⟩
  · rw [generateSchedule_eq]
    exact appointments_length _ _ _
  · rw [generateSchedule_eq]
    simp only [List.length_map]
    exact appointments_length _ _ _

theorem generateSchedule_nonpositive_interval_witness :
    ∃ schedule deadlines : List Time,
      generateSchedule.call (Date 2023 December 4 10 0 0 0 UTC) (-2 * Hour) 3 =
        Except.ok (schedule, deadlines) ∧
      schedule.length = (3 : Int).toNat ∧ deadlines.length = (3 : Int).toNat :=
  generateSchedule_nonpositive_interval (Date 2023 December 4 10 0 0 0 UTC) (-2 * Hour) 3
    (by decide)

theorem intercalate_go_data (sep : String) (l : List String) (acc : String) :
    (String.intercalate.go acc sep l).data =
      acc.data ++ (l.map (fun a => sep.data ++ a.data)).flatten := by
  induction l generalizing acc with
  | nil => simp [String.intercalate.go]
  | cons a as ih => simp [String.intercalate.go, ih, String.data_append]

/-- What `IndexByte` finds: either the byte is absent, or the text splits around
its first occurrence. -/
theorem IndexByte_spec (c : Char) (s : List Char) :
    (strings.IndexByte c s < 0 ∧ strings.CountByte c s = 0 ∧ c ∉ s) ∨
    (∃ pre post, s = pre ++ c :: post ∧ c ∉ pre ∧ strings.IndexByte c s = (pre.length : Int) ∧
      strings.CountByte c s = strings.CountByte c post + 1) := by
  induction s with
  | nil => left; simp [strings.IndexByte, strings.CountByte]
  | cons r rest ih =>
    by_cases hr : r = c
    · right
      refine ⟨[], rest, by simp [hr], by simp, by simp [strings.IndexByte, hr], ?_⟩
      simp [strings.CountByte, hr]
      omega
    · rcases ih with ⟨h1, h2, h3⟩ | ⟨pre, post, h1, h2, h3, h4⟩
      · left
        refine ⟨?_, ?_, ?_⟩
        · simp [strings.IndexByte, hr, h1]
        · simp [strings.CountByte, hr, h2]
        · simp [h3, Ne.symm hr]
      · right
        refine ⟨r :: pre, post, by simp [h1], by simp [h2, Ne.symm hr], ?_, ?_⟩
        · have hn : ¬ ((pre.length : Int) < 0) := by omega
          simp [strings.IndexByte, hr, h3, hn]
        · simp [strings.CountByte, hr, h4]

theorem CountByte_eq_count (c : Char) (s : List Char) : strings.CountByte c s = s.count c := by
  induction s with
  | nil => rfl
  | cons r rest ih =>
    simp only [strings.CountByte, ih, List.count_cons, beq_iff_eq]
    omega

theorem CountByte_le_length (c : Char) (s : List Char) : strings.CountByte c s ≤ s.length := by
  rw [CountByte_eq_count]
  exact List.count_le_length c s

/-- The pieces `genSplit` cuts when it is allowed as many cuts as there are
separators. -/
theorem genSplit_loop_spec (c : Char) (k : Nat) (s : List Char)
    (hk : strings.CountByte c s = k) :
    (strings.genSplit.loop c k s).length = k + 1 ∧
    (∀ piece ∈ strings.genSplit.loop c k s, c ∉ piece) ∧
    (strings.genSplit.loop c k s ≠ []) ∧
    ((strings.genSplit.loop c k s).map (fun a => [c] ++ a)).flatten = c :: s := by
  induction k generalizing s with
  | zero =>
    rcases IndexByte_spec c s with ⟨_, _, h3⟩ | ⟨pre, post, _, _, _, h4⟩
    · simp [strings.genSplit.loop, h3]
    · omega
  | succ k ih =>
    rcases IndexByte_spec c s with ⟨_, h2, _⟩ | ⟨pre, post, h1, h2, h3, h4⟩
    · omega
    · have hn : ¬ (strings.IndexByte c s < 0) := by omega
      have hm : (strings.IndexByte c s).toNat = pre.length := by omega
      have hpost : strings.CountByte c post = k := by omega
      obtain ⟨i1, i2, i3, i4⟩ := ih post hpost
      have htake : s.take pre.length = pre := by simp [h1]
      have hdrop : s.drop (pre.length + 1) = post := by simp [h1]
      simp only [strings.genSplit.loop, hn, if_false, hm, htake, hdrop]
      refine ⟨by simp [i1], ?_, by simp, ?_⟩
      · intro piece hp
        simp only [List.mem_cons] at hp
        rcases hp with hp | hp
        · rw [hp]; exact h2
        · exact i2 piece hp
      · simp only [List.map_cons, List.flatten_cons, i4, h1]
        simp

/-- C8: `parseCommaSeparatedString` returns the untrimmed pieces between the
commas, in order: one more piece than there are commas, no piece holds a
comma, and the pieces joined with "," are the input again; "a,b,c" gives
three pieces and the empty string gives the single piece "". -/
theorem parseCommaSeparatedString_pieces :
    (∀ s : String,
      (parseCommaSeparatedString s).length = s.data.count ',' + 1 ∧
      (∀ piece ∈ parseCommaSeparatedString s, ',' ∉ piece.data) ∧
      ",".intercalate (parseCommaSeparatedString s) = s) ∧
    parseCommaSeparatedString "a,b,c" = ["a", "b", "c"] ∧
    parseCommaSeparatedString "" = [""] := by
  refine ⟨?_, by decide, by decide⟩
  intro s
  have hle := CountByte_le_length ',' s.data
  have hn : ¬ (strings.CountByte ',' s.data + 1 > s.data.length + 1) := by omega
  obtain ⟨h1, h2, h3, h4⟩ := genSplit_loop_spec ',' (strings.CountByte ',' s.data) s.data rfl
  have hE : parseCommaSeparatedString s =
      (strings.genSplit.loop ',' (strings.CountByte ',' s.data) s.data).map String.mk := by
    simp only [parseCommaSeparatedString, strings.Split, hn, if_false, Nat.add_sub_cancel]
  rw [hE]
  refine ⟨?_, ?_, ?_⟩
  · rw [List.length_map, h1, CountByte_eq_count]
  · intro piece hp
    obtain ⟨l, hl, rfl⟩ := List.mem_map.mp hp
    exact h2 l hl
  · generalize strings.genSplit.loop ',' (strings.CountByte ',' s.data) s.data = pieces at h3 h4
    cases pieces with
    | nil => exact absurd rfl h3
    | cons a rest =>
      apply String.ext
      simp only [List.map_cons, String.intercalate, intercalate_go_data, List.map_map]
      simp only [List.map_cons, List.flatten_cons, List.singleton_append, List.cons_append,
        List.nil_append, List.cons.injEq, true_and] at h4
      rw [← h4]
      congr 1

/-- The fields that the scanning loop of `FieldsFunc` collects are the non-empty
pieces between the separating runes. -/
theorem scan_spec (f : Char → Bool) (s : List Char) :
    strings.FieldsFunc.scan f s none = (s.splitOnP f).filter (fun w => !w.isEmpty) ∧
    ∀ field : List Char, field ≠ [] →
      strings.FieldsFunc.scan f s (some field) =
        ((s.splitOnP f).modifyHead (fun w => field ++ w)).filter (fun w => !w.isEmpty) := by
  induction s with
  | nil =>
    refine ⟨by simp [strings.FieldsFunc.scan, List.splitOnP_nil], ?_⟩
    intro field hf
    simp [strings.FieldsFunc.scan, List.splitOnP_nil, List.modifyHead, hf]
  | cons r rest ih =>
    obtain ⟨ih1, ih2⟩ := ih
    by_cases hr : f r = true
    · refine ⟨by simp [strings.FieldsFunc.scan, List.splitOnP_cons, hr, ih1], ?_⟩
      intro field hf
      simp [strings.FieldsFunc.scan, List.splitOnP_cons, hr, ih1, List.modifyHead, hf]
    · have hne := List.splitOnP_ne_nil f rest
      refine ⟨?_, ?_⟩
      · simp only [strings.FieldsFunc.scan, hr, List.splitOnP_cons, if_false, Bool.false_eq_true]
        rw [ih2 [r] (by simp)]
        rfl
      · intro field hf
        simp only [strings.FieldsFunc.scan, hr, List.splitOnP_cons, if_false, Bool.false_eq_true]
        rw [ih2 (field ++ [r]) (by simp)]
        cases hsp : List.splitOnP f rest with
        | nil => exact absurd hsp hne
        | cons w ws => simp [List.modifyHead]

theorem Fields_eq_tokens (s : String) : strings.Fields s = whitespaceTokens s := by
  simp only [strings.Fields, strings.FieldsFunc, whitespaceTokens, (scan_spec _ _).1]

theorem intercalate_go_eq_foldl (sep : String) (l : List String) (acc : String) :
    String.intercalate.go acc sep l = l.foldl (fun b s => b ++ sep ++ s) acc := by
  induction l generalizing acc with
  | nil => rfl
  | cons a as ih => simp [String.intercalate.go, ih]

theorem Join_eq_intercalate (elems : List String) (sep : String) :
    strings.Join elems sep = sep.intercalate elems := by
  cases elems with
  | nil => rfl
  | cons e rest =>
    cases rest with
    | nil => rfl
    | cons e2 rest2 =>
      simp only [strings.Join, String.intercalate, intercalate_go_eq_foldl]

theorem splitFullName_of_names (names : List String) :
    (if h : names.length > 0 then
      if names.length > 1 then (names[0], strings.Join (names.drop 1) " ") else (names[0], "")
    else ("", "")) = (names.headD "", " ".intercalate names.tail) := by
  cases names with
  | nil => simp [String.intercalate]
  | cons a rest =>
    cases rest with
    | nil => simp [String.intercalate]
    | cons b rest2 => simp [Join_eq_intercalate]

/-- C7: `splitFullName` returns the first whitespace-delimited token as first
name (the empty string when there is none) and the remaining tokens joined by
single spaces as last name (the empty string when there is at most one token). -/
theorem splitFullName_tokens :
    (∀ fullName : String,
      splitFullName fullName =
        ((whitespaceTokens fullName).headD "", " ".intercalate (whitespaceTokens fullName).tail)) ∧
    splitFullName "Jane Doe Smith" = ("Jane", "Doe Smith") ∧
    splitFullName "Solo" = ("Solo", "") ∧
    splitFullName "" = ("", "") := by
  refine ⟨?_, by decide, by decide, by decide⟩
  intro fullName
  unfold splitFullName
  simp only [Fields_eq_tokens]
  exact splitFullName_of_names (whitespaceTokens fullName)

theorem convert_ok (record : List String) (h : 5 ≤ record.length) :
    ∃ prospect, loadProspectsFromCSV.convert record = Except.ok prospect := by
  match record, h with
  | a :: b :: c :: d :: e :: rest, _ =>
    refine ⟨⟨(splitFullName a).1, (splitFullName a).2, b, c, e, parseCommaSeparatedString d⟩, ?_⟩
    simp [loadProspectsFromCSV.convert, index, bind, Except.bind, pure, Except.pure]

theorem convert_short (record : List String) (h : record.length < 5) :
    loadProspectsFromCSV.convert record =
      Except.error (Failure.panic
        (Panic.indexOutOfRange (firstBadIndex record.length) record.length)) := by
  match record, h with
  | [], _ => rfl
  | [a], _ => rfl
  | [a, b], _ => rfl
  | [a, b, c], _ => rfl
  | [a, b, c, d], _ => rfl
  | a :: b :: c :: d :: e :: rest, h => exact absurd h (by simp)

theorem loop_ok (rows : List (List String)) (acc : List Prospect)
    (h : ∀ record ∈ rows, 5 ≤ record.length) :
    ∃ prospects, loadProspectsFromCSV.loop rows acc = Except.ok prospects ∧
      prospects.length = acc.length + rows.length := by
  induction rows generalizing acc with
  | nil => exact ⟨acc, rfl, rfl⟩
  | cons record rest ih =>
    obtain ⟨p, hp⟩ := convert_ok record (h record (List.mem_cons_self _ _))
    obtain ⟨ps, h1, h2⟩ := ih (acc ++ [p]) (fun r hr => h r (List.mem_cons_of_mem _ hr))
    refine ⟨ps, ?_, ?_⟩
    · simp only [loadProspectsFromCSV.loop, hp, h1]
    · simp only [h2, List.length_append, List.length_cons, List.length_nil]
      omega

theorem loop_short (pre : List (List String)) (record : List String)
    (post : List (List String)) (acc : List Prospect)
    (hpre : ∀ r ∈ pre, 5 ≤ r.length) (hrec : record.length < 5) :
    loadProspectsFromCSV.loop (pre ++ record :: post) acc =
      Except.error (Failure.panic
        (Panic.indexOutOfRange (firstBadIndex record.length) record.length)) := by
  induction pre generalizing acc with
  | nil => simp only [List.nil_append, loadProspectsFromCSV.loop, convert_short record hrec]
  | cons r rest ih =>
    obtain ⟨p, hp⟩ := convert_ok r (hpre r (List.mem_cons_self _ _))
    simp only [List.cons_append, loadProspectsFromCSV.loop, hp]
    exact ih (acc ++ [p]) (fun x hx => hpre x (List.mem_cons_of_mem _ hx))

theorem first_short (rows : List (List String)) (h : ∃ record ∈ rows, record.length < 5) :
    ∃ pre record post, rows = pre ++ record :: post ∧ (∀ r ∈ pre, 5 ≤ r.length) ∧
      record.length < 5 := by
  induction rows with
  | nil => simp at h
  | cons r rest ih =>
    by_cases hr : r.length < 5
    · exact ⟨[], r, rest, rfl, by simp, hr⟩
    · have h2 : ∃ record ∈ rest, record.length < 5 := by
        obtain ⟨x, hx, hlt⟩ := h
        rcases List.mem_cons.mp hx with rfl | hx
        · exact absurd hlt hr
        · exact ⟨x, hx, hlt⟩
      obtain ⟨pre, record, post, e1, e2, e3⟩ := ih h2
      refine ⟨r :: pre, record, post, by simp [e1], ?_, e3⟩
      intro x hx
      rcases List.mem_cons.mp hx with rfl | hx
      · omega
      · exact e2 x hx

/-- C6, as the specification states it, fails: a row of four fields does not
yield a reported `InputError`; the read of `record[4]` panics with an index
out of range. -/
theorem loadProspectsFromCSV_short_row_panics :
    loadProspectsFromCSV (fun _ => [["Jane Doe", "jane@example.org", "555", "a,b"]]) "data2.csv" =
      Except.error (Failure.panic (Panic.indexOutOfRange 4 4)) ∧
    loadProspectsFromCSV (fun _ => [["Jane Doe", "jane@example.org", "555", "a,b"]]) "data2.csv" ≠
      Except.error (Failure.reported ErrorKind.InputError) := by
  have h : loadProspectsFromCSV
      (fun _ => [["Jane Doe", "jane@example.org", "555", "a,b"]]) "data2.csv" =
      Except.error (Failure.panic (Panic.indexOutOfRange 4 4)) := rfl
  refine ⟨h, ?_⟩
  rw [h]
  intro h2
  cases h2

/-- C6 amended: the conversion fails exactly when some row has fewer than five
fields; the failure is the run-time index-out-of-range panic raised at the
first such row (never a reported `InputError`), it aborts the whole batch so
that no prospect is returned, and when every row has five fields or more each
row yields one prospect. -/
theorem loadProspectsFromCSV_fails_iff (readCSVfile : String → List (List String))
    (filePath : String) :
    ((∃ e, loadProspectsFromCSV readCSVfile filePath = Except.error e) ↔
      ∃ record ∈ readCSVfile filePath, record.length < 5) ∧
    (∀ e, loadProspectsFromCSV readCSVfile filePath = Except.error e →
      ∃ pre record post, readCSVfile filePath = pre ++ record :: post ∧
        (∀ r ∈ pre, 5 ≤ r.length) ∧ record.length < 5 ∧
        e = Failure.panic
          (Panic.indexOutOfRange (firstBadIndex record.length) record.length)) ∧
    ((∃ record ∈ readCSVfile filePath, record.length < 5) →
      ∀ prospects, loadProspectsFromCSV readCSVfile filePath ≠ Except.ok prospects) ∧
    ((∀ record ∈ readCSVfile filePath, 5 ≤ record.length) →
      ∃ prospects, loadProspectsFromCSV readCSVfile filePath = Except.ok prospects ∧
        prospects.length = (readCSVfile filePath).length) := by
  unfold loadProspectsFromCSV
  generalize readCSVfile filePath = rows
  have hshort : (∃ record ∈ rows, record.length < 5) →
      ∃ pre record post, rows = pre ++ record :: post ∧ (∀ r ∈ pre, 5 ≤ r.length) ∧
        record.length < 5 ∧ loadProspectsFromCSV.loop rows [] = Except.error (Failure.panic
          (Panic.indexOutOfRange (firstBadIndex record.length) record.length)) := by
    intro h
    obtain ⟨pre, record, post, e1, e2, e3⟩ := first_short rows h
    refine ⟨pre, record, post, e1, e2, e3, ?_⟩
    rw [e1]
    exact loop_short pre record post [] e2 e3
  have hok : (¬ ∃ record ∈ rows, record.length < 5) →
      ∃ prospects, loadProspectsFromCSV.loop rows [] = Except.ok prospects ∧
        prospects.length = rows.length := by
    intro h
    obtain ⟨ps, h1, h2⟩ := loop_ok rows [] (fun r hr => by
      by_contra hlt
      exact h ⟨r, hr, by omega⟩)
    exact ⟨ps, h1, by simpa using h2⟩
  refine ⟨⟨?_, ?_⟩, ?_, ?_, ?_⟩
  · rintro ⟨e, he⟩
    by_contra hno
    obtain ⟨ps, h1, _⟩ := hok hno
    rw [h1] at he
    cases he
  · intro h
    obtain ⟨_, _, _, _, _, _, h1⟩ := hshort h
    exact ⟨_, h1⟩
  · intro e he
    by_cases hex : ∃ record ∈ rows, record.length < 5
    · obtain ⟨pre, record, post, e1, e2, e3, h1⟩ := hshort hex
      rw [h1] at he
      refine ⟨pre, record, post, e1, e2, e3, ?_⟩
      cases he
      rfl
    · obtain ⟨ps, h1, _⟩ := hok hex
      rw [h1] at he
      cases he
  · intro h prospects hp
    obtain ⟨_, _, _, _, _, _, h1⟩ := hshort h
    rw [h1] at hp
    cases hp
  · intro h
    exact hok (by
      rintro ⟨r, hr, hlt⟩
      have := h r hr
      omega)

theorem parseEmailTemplate_ok (w : World) (data : EmailTemplateData) (st : Run)
    (hparse : ∀ k, (w.Parse ((w.ReadFile k).getD "")).isSome = true) :
    parseEmailTemplate w data st =
      Except.ok (renderOutput w st.reads data,
        { reads := st.reads + 1, sends := st.sends, writes := st.writes,
          trace := st.trace ++ [Event.readTemplate (w.ReadFile st.reads),
            Event.render data (renderOutput w st.reads data)] }) := by
  have hp := hparse st.reads
  unfold parseEmailTemplate readHTMLTemplate renderOutput
  cases hr : w.ReadFile st.reads with
  | none =>
    rw [hr] at hp
    simp only [Option.getD_none] at hp ⊢
    cases hq : w.Parse "" with
    | none => rw [hq] at hp; cases hp
    | some tmpl => simp
  | some content =>
    rw [hr] at hp
    simp only [Option.getD_some] at hp ⊢
    cases hq : w.Parse content with
    | none => rw [hq] at hp; cases hp
    | some tmpl => simp

theorem indexTime_ok (times : List time.Time) (i : Nat) (h : i < times.length) :
    indexTime times i = Except.ok (times.getD i zeroTime) := by
  simp [indexTime, List.getD, List.getElem?_eq_getElem h]

theorem body_ok (w : World) (schedule deadlines : List time.Time) (index : Nat)
    (prospect : Prospect) (st : Run)
    (hparse : ∀ k, (w.Parse ((w.ReadFile k).getD "")).isSome = true)
    (hS : index < schedule.length) (hD : index < deadlines.length)
    (hr : st.reads = 2 * index) (hs : st.sends = index) (hw : st.writes = index) :
    main.body w schedule deadlines index prospect st =
      Except.ok { reads := 2 * (index + 1), sends := index + 1, writes := index + 1,
                  trace := st.trace ++ prospectEvents w schedule deadlines index prospect } := by
  simp only [main.body, indexTime_ok schedule index hS, indexTime_ok deadlines index hD,
    bind, Except.bind, pure, Except.pure, parseEmailTemplate_ok w _ _ hparse, sendEmail,
    writeTemplateFile, prospectEvents, hr, hs, hw]
  simp only [List.append_assoc, List.cons_append, List.nil_append, Except.ok.injEq,
    Run.mk.injEq, and_true, true_and]
  omega

theorem loop_trace (w : World) (schedule deadlines : List time.Time)
    (hparse : ∀ k, (w.Parse ((w.ReadFile k).getD "")).isSome = true)
    (prospects : List Prospect) (index : Nat) (st : Run)
    (hS : index + prospects.length ≤ schedule.length)
    (hD : index + prospects.length ≤ deadlines.length)
    (hr : st.reads = 2 * index) (hs : st.sends = index) (hw : st.writes = index) :
    ∃ st2, main.loop w schedule deadlines index prospects st = Except.ok st2 ∧
      st2.trace = st.trace ++ (prospects.enumFrom index).flatMap
        (fun ip => prospectEvents w schedule deadlines ip.1 ip.2) := by
  induction prospects generalizing index st with
  | nil => exact ⟨st, rfl, by simp⟩
  | cons p rest ih =>
    simp only [List.length_cons] at hS hD
    have hb := body_ok w schedule deadlines index p st hparse (by omega) (by omega) hr hs hw
    obtain ⟨st2, h1, h2⟩ := ih (index + 1)
      { reads := 2 * (index + 1), sends := index + 1, writes := index + 1,
        trace := st.trace ++ prospectEvents w schedule deadlines index p }
      (by omega) (by omega) rfl rfl rfl
    refine ⟨st2, ?_, ?_⟩
    · simp only [main.loop, hb, h1]
    · rw [h2]
      simp [List.enumFrom_cons, List.flatMap_cons]

/-- With a template that parses, the loop of `main` runs to the end and its
trace is the concatenation, in input order, of the events of each prospect. -/
theorem main_loop_trace (w : World) (prospects : List Prospect)
    (hparse : ∀ k, (w.Parse ((w.ReadFile k).getD "")).isSome = true) :
    ∃ st, main.loop w (main.scheduleFor prospects.length).1 (main.scheduleFor prospects.length).2
        0 prospects ⟨0, 0, 0, []⟩ = Except.ok st ∧
      st.trace = prospects.enum.flatMap (fun ip => prospectEvents w
        (main.scheduleFor prospects.length).1 (main.scheduleFor prospects.length).2 ip.1 ip.2) := by
  have hlen := generateSchedule_eq (time.Date 2023 time.December 4 10 0 0 0 time.UTC)
    (2 * time.Hour) prospects.length
  have h1 : (main.scheduleFor prospects.length).1.length = prospects.length := by
    rw [main.scheduleFor, hlen]
    simp [appointments_length]
  have h2 : (main.scheduleFor prospects.length).2.length = prospects.length := by
    rw [main.scheduleFor, hlen]
    simp [appointments_length]
  obtain ⟨st, e1, e2⟩ := loop_trace w _ _ hparse prospects 0 ⟨0, 0, 0, []⟩
    (by rw [h1]; omega) (by rw [h2]; omega) rfl rfl rfl
  refine ⟨st, e1, ?_⟩
  rw [e2]
  simp [List.enum]

/-- Once the prospects are loaded, `main` is its loop over them, started at
index 0 with the schedule computed for their number. -/
theorem main_eq_loop (w : World) (prospects : List Prospect)
    (hload : loadProspectsFromCSV w.readCSVfile "data2.csv" = Except.ok prospects) :
    main.main w = main.loop w (main.scheduleFor prospects.length).1
      (main.scheduleFor prospects.length).2 0 prospects ⟨0, 0, 0, []⟩ := by
  simp only [main.main, hload, bind, Except.bind, main.scheduleFor]

theorem renders_append (l1 l2 : List Event) : renders (l1 ++ l2) = renders l1 ++ renders l2 := by
  induction l1 with
  | nil => rfl
  | cons e rest ih => cases e <;> simp [renders, ih]

theorem attempts_append (l1 l2 : List Event) :
    attempts (l1 ++ l2) = attempts l1 ++ attempts l2 := by
  induction l1 with
  | nil => rfl
  | cons e rest ih => cases e <;> simp [attempts, ih]

theorem renders_flatMap (w : World) (schedule deadlines : List time.Time)
    (l : List (Nat × Prospect)) :
    (renders (l.flatMap (fun ip => prospectEvents w schedule deadlines ip.1 ip.2))).length =
      2 * l.length := by
  induction l with
  | nil => rfl
  | cons ip rest ih =>
    rw [List.flatMap_cons, renders_append, List.length_append, ih]
    simp only [prospectEvents, renders, List.length_cons, List.length_nil]
    omega

theorem attempts_flatMap (w : World) (schedule deadlines : List time.Time)
    (l : List (Nat × Prospect)) :
    attempts (l.flatMap (fun ip => prospectEvents w schedule deadlines ip.1 ip.2)) =
      l.flatMap (fun ip => [Attempt.send ip.2.Email, Attempt.archive (main.outputFile ip.1 ip.2)]) := by
  induction l with
  | nil => rfl
  | cons ip rest ih =>
    rw [List.flatMap_cons, attempts_append, ih]
    simp [prospectEvents, attempts]

/-- C9, as the specification states it, fails: for a file with one prospect the
run of `main` renders the template twice, not once. -/
theorem main_one_prospect_two_renders :
    (loadProspectsFromCSV
      (exampleWorld [["Jane Doe", "jane@example.org", "555", "a,b", "Acme"]]).readCSVfile
      "data2.csv").toOption.map List.length = some 1 ∧
    (main.main (exampleWorld [["Jane Doe", "jane@example.org", "555", "a,b", "Acme"]])).toOption.map
      (fun st => (renders st.trace).length) = some 2 := by
  constructor <;> rfl

/-- C9 amended: for the prospect at index `i` the loop reads and renders the
template twice, both times from the context built from prospect `i` and
schedule entry `i`; the first output goes to `sendEmail`, the second to the
file `output/<i>-<firstName>-<lastName>.html`.  The two outputs are the same
bytes whenever the two reads of the template file return the same content. -/
theorem main_renders_twice (w : World) (prospects : List Prospect)
    (hparse : ∀ k, (w.Parse ((w.ReadFile k).getD "")).isSome = true) :
    ∃ st, main.loop w (main.scheduleFor prospects.length).1 (main.scheduleFor prospects.length).2
        0 prospects ⟨0, 0, 0, []⟩ = Except.ok st ∧
      st.trace = prospects.enum.flatMap (fun ip => prospectEvents w
        (main.scheduleFor prospects.length).1 (main.scheduleFor prospects.length).2 ip.1 ip.2) ∧
      (renders st.trace).length = 2 * prospects.length ∧
      (∀ (i : Nat) (data : EmailTemplateData), w.ReadFile (2 * i) = w.ReadFile (2 * i + 1) →
        renderOutput w (2 * i) data = renderOutput w (2 * i + 1) data) ∧
      (loadProspectsFromCSV w.readCSVfile "data2.csv" = Except.ok prospects →
        main.main w = Except.ok st) := by
  obtain ⟨st, h1, h2⟩ := main_loop_trace w prospects hparse
  refine ⟨st, h1, h2, ?_, ?_, ?_⟩
  · rw [h2, renders_flatMap]
    simp [List.enum]
  · intro i data h
    simp only [renderOutput, h]
  · intro hload
    rw [main_eq_loop w prospects hload, h1]

theorem main_renders_twice_witness :
    ∃ st, main.loop (exampleWorld [])
        (main.scheduleFor [(⟨"Jane", "Doe", "jane@example.org", "555", "Acme", ["a", "b"]⟩ :
          Prospect)].length).1
        (main.scheduleFor [(⟨"Jane", "Doe", "jane@example.org", "555", "Acme", ["a", "b"]⟩ :
          Prospect)].length).2
        0 [⟨"Jane", "Doe", "jane@example.org", "555", "Acme", ["a", "b"]⟩] ⟨0, 0, 0, []⟩ =
          Except.ok st ∧
      (renders st.trace).length = 2 :=
  (main_renders_twice (exampleWorld [])
    [⟨"Jane", "Doe", "jane@example.org", "555", "Acme", ["a", "b"]⟩] (fun _ => rfl)).elim
    (fun st h => ⟨st, h.1, h.2.2.1⟩)

/-- C10: whatever the transport answers to each `DialAndSend` (and whatever the
file system answers to each write), the loop of `main`, run with a template
that parses, goes through all prospects in input order, and each prospect gets
one send attempt followed by one archive attempt: a failed send stops neither
the archive write of that prospect nor the processing of the next one. -/
theorem main_attempts (w : World) (outcome : Nat → Bool) (prospects : List Prospect)
    (hparse : ∀ k, (w.Parse ((w.ReadFile k).getD "")).isSome = true) :
    ∃ st, main.loop { w with DialAndSend := outcome } (main.scheduleFor prospects.length).1
        (main.scheduleFor prospects.length).2 0 prospects ⟨0, 0, 0, []⟩ = Except.ok st ∧
      attempts st.trace = prospects.enum.flatMap
        (fun ip => [Attempt.send ip.2.Email, Attempt.archive (main.outputFile ip.1 ip.2)]) ∧
      (loadProspectsFromCSV w.readCSVfile "data2.csv" = Except.ok prospects →
        main.main { w with DialAndSend := outcome } = Except.ok st) := by
  obtain ⟨st, h1, h2⟩ := main_loop_trace { w with DialAndSend := outcome } prospects hparse
  refine ⟨st, h1, ?_, ?_⟩
  · rw [h2, attempts_flatMap]
  · intro hload
    rw [main_eq_loop { w with DialAndSend := outcome } prospects hload, h1]

theorem main_attempts_witness :
    ∃ st, main.main { exampleWorld [["Jane Doe", "jane@example.org", "555", "a,b", "Acme"],
          ["Solo", "solo@example.org", "556", "", "Beta"]] with DialAndSend := fun _ => false } =
        Except.ok st ∧
      attempts st.trace =
        [Attempt.send "jane@example.org", Attempt.archive "output/0-Jane-Doe.html",
         Attempt.send "solo@example.org", Attempt.archive "output/1-Solo-.html"] := by
  obtain ⟨st, _, h2, h3⟩ := main_attempts
    (exampleWorld [["Jane Doe", "jane@example.org", "555", "a,b", "Acme"],
      ["Solo", "solo@example.org", "556", "", "Beta"]]) (fun _ => false)
    [⟨"Jane", "Doe", "jane@example.org", "555", "Acme", ["a", "b"]⟩,
     ⟨"Solo", "", "solo@example.org", "556", "Beta", [""]⟩] (fun _ => rfl)
  exact ⟨st, h3 rfl, h2.trans (by decide)⟩

